import Mathlib

/-!
Verification development for the NewBackupSystem repository.

This file gives a shallow embedding (in Lean 4) of the core data-handling
routines of the backup system and proves properties about them:

* `upsertTableData` — the backup-direction row reconciler
  (Backend/controllers/comparisonController.js);
* `tableProgress` / `compareTableEntry` / `findMissingRecords` — the
  database comparator (Backend/services/comparisonService.js);
* `setBackupStatus` / `setUploadStatus` — the job tracker upsert
  (Backend/services/backupStatusService.js and the upload status service);
* `cleanupOldStatuses` / `cleanupOldUploadStatuses` — the retention sweep;
* `uploadTableRecords` — the upload-direction reconciler
  (Backend/services/uploadService.js);
* `compareBackupFiles` — the file-set comparator;
* `getAllFilesFromHttp` — the plain-HTTP file-listing fallback
  (Backend/services/fhsFilesService.js).

JavaScript values appearing in table rows are modelled by `JsVal`
(null / undefined / primitive / object); SQL text serialization collapses
primitives and JSON-stringified objects to strings, and both `null` and
`undefined` to SQL NULL, exactly as the source's value interpolation does.
Database tables are modelled as lists of association-list rows.  SQL query
errors modelled here are the deterministic "column does not exist" errors
raised when a generated statement references a column absent from the
mirror table's schema; transient database failures are modelled by the
explicit per-row fault injection of `runRows`.
-/

/-- A JavaScript value as it appears in a fetched row: `null`, `undefined`,
a primitive (whose SQL literal is `String(value)`), or an object (whose SQL
literal is `JSON.stringify(value)`; we record the stringified form). -/
inductive JsVal where
  | null
  | undef
  | prim (s : String)
  | obj (s : String)
deriving DecidableEq

/-- A source row: an association list from property names to values
(the shape of a row object returned by `SELECT *`). -/
abbrev Row := List (String × JsVal)

/-- First value stored under key `k`, if any (JS property access hits the
single binding of `k`; on duplicate keys the first pair wins). -/
def rfind? (r : Row) (k : String) : Option JsVal :=
  (r.find? (fun p => decide (p.1 = k))).map (·.2)

/-- JS property access `row[k]`: a missing property reads as `undefined`. -/
def rlookup (r : Row) (k : String) : JsVal :=
  (rfind? r k).getD JsVal.undef

/-- Serialization of a value into the SQL text stored by the generated
INSERT statement: `null`/`undefined` become SQL NULL (`none`); primitives
are `String(value)`; objects are `JSON.stringify(value)`.  (The `''`
escaping of quotes in the literal does not change the stored text and is
omitted.) -/
def serialize : JsVal → Option String
  | JsVal.null => none
  | JsVal.undef => none
  | JsVal.prim s => some s
  | JsVal.obj s => some s

/-- `name.replace(/[^a-zA-Z0-9_]/g, '')`: the identifier sanitizer applied
to every table and column name before it is embedded in a statement. -/
def sanitizeIdent (s : String) : String :=
  String.mk (s.toList.filter (fun c => c.isAlphanum || c = '_'))

/-- Column metadata as returned by `information_schema.columns`. -/
structure Col where
  name : String
  type : String
deriving DecidableEq

/-- `columns.some(col => col.name.toLowerCase() === 'id')`. -/
def hasIdCol (columns : List Col) : Bool :=
  columns.any (fun c => c.name.toLower == "id")

/-- A mirror-table row: column name → stored SQL text (`none` = NULL).
Rows produced by the generated INSERT carry exactly the insert columns;
a column absent from the association list reads as NULL. -/
abbrev MRow := List (String × Option String)

/-- Stored text of column `c` in mirror row `m` (missing column = NULL). -/
def mlookup (m : MRow) (c : String) : Option String :=
  ((m.find? (fun p => decide (p.1 = c))).map (·.2)).getD none

/-- The local mirror table: its column set (schema) and its rows. -/
structure MirrorTable where
  schema : List String
  rows : List MRow
deriving DecidableEq

/-- Columns of a freshly created mirror table (`createTableIfNotExists`):
a surrogate `id SERIAL PRIMARY KEY` only when the source has no id-like
column, then the sanitized source columns, then the two bookkeeping
timestamps. -/
def mkSchema (columns : List Col) : List String :=
  (if hasIdCol columns then [] else ["id"])
    ++ columns.map (fun c => sanitizeIdent c.name)
    ++ ["backup_created_at", "backup_updated_at"]

/-- `createTableIfNotExists`: `CREATE TABLE IF NOT EXISTS` — a no-op when
the mirror table already exists, otherwise an empty table with `mkSchema`. -/
def createTableIfNotExists (columns : List Col) (mt : Option MirrorTable) : MirrorTable :=
  match mt with
  | some t => t
  | none => ⟨mkSchema columns, []⟩

/-- The per-table context of the reconciliation loop: the mirror table's
actual schema, the sanitized source column names (`columnNames`), and the
`hasIdColumn` flag. -/
structure Ctx where
  schema : List String
  cols : List String
  hasId : Bool

def mkCtx (columns : List Col) (t : MirrorTable) : Ctx :=
  ⟨t.schema, columns.map (fun c => sanitizeIdent c.name), hasIdCol columns⟩

/-- Whether the duplicate check for this row takes the fast id path:
`hasIdColumn && row.id !== null && row.id !== undefined`. -/
def idBranch (σ : Ctx) (r : Row) : Bool :=
  σ.hasId && (serialize (rlookup r "id")).isSome

/-- Columns referenced by the duplicate-check query.  The id path runs
`SELECT id ... WHERE "id" = '...'` (column `id` only); the full-column
path runs `SELECT id ... WHERE <every sanitized column>`.  The query
errors out ("column does not exist") when any referenced column is
missing from the mirror table. -/
def refsOk (σ : Ctx) (r : Row) : Bool :=
  if idBranch σ r then σ.schema.contains "id"
  else σ.schema.contains "id" && σ.cols.all (fun c => σ.schema.contains c)

/-- Whether every insert column exists in the mirror table (otherwise the
generated INSERT errors out with "column does not exist"). -/
def colsOk (σ : Ctx) : Bool :=
  σ.cols.all (fun c => σ.schema.contains c)

/-- The existence predicate of the duplicate-check query against one
mirror row: id path compares the stored `id` text with the serialized
`row.id` (a stored NULL never equals a literal); full-column path requires
every column to agree, with NULL compared via IS NULL. -/
def matchesRow (σ : Ctx) (r : Row) (m : MRow) : Bool :=
  if idBranch σ r then mlookup m "id" == serialize (rlookup r "id")
  else σ.cols.all (fun c => mlookup m c == serialize (rlookup r c))

/-- The mirror row written by the generated INSERT: every sanitized column
receives the serialized value read from the row under that sanitized name
(`row[col]` with `col` already sanitized, as in the source). -/
def insertRowFn (cols : List String) (r : Row) : MRow :=
  cols.map (fun c => (c, serialize (rlookup r c)))

/-- Outcome of processing one source row. -/
inductive RowOutcome where
  | ins
  | skip
  | drop
deriving DecidableEq

/-- One iteration of the reconciliation loop on a row whose database calls
succeed: run the duplicate check (dropping the row if the check query
references a missing column — the error message is not a duplicate error);
skip on a match; otherwise insert (dropping the row if the INSERT
references a missing column). -/
def stepRow (σ : Ctx) (r : Row) (rows : List MRow) : List MRow × RowOutcome :=
  if refsOk σ r then
    if rows.any (matchesRow σ r) then (rows, RowOutcome.skip)
    else if colsOk σ then (rows ++ [insertRowFn σ.cols r], RowOutcome.ins)
    else (rows, RowOutcome.drop)
  else (rows, RowOutcome.drop)

/-- `error.message.includes('duplicate') || includes('unique') ||
includes('constraint')` — the catch-branch classification.  A string `s`
contains `pat` exactly when `s.splitOn pat` has more than one part. -/
def isDuplicateError (msg : String) : Bool :=
  1 < (msg.splitOn "duplicate").length
    || 1 < (msg.splitOn "unique").length
    || 1 < (msg.splitOn "constraint").length

/-- The per-row loop of `upsertTableData`, with per-row fault injection:
a row paired with `some msg` models an unexpected database error `msg`
thrown while processing that row (caught by the row-level catch: counted
as a skip when the message indicates a duplicate/unique/constraint
violation, otherwise logged and dropped); a row paired with `none` is
processed normally.  Returns (mirror rows, inserted, skipped). -/
def runRows (σ : Ctx) : List (Row × Option String) → List MRow → List MRow × Nat × Nat
  | [], rows => (rows, 0, 0)
  | (_, some msg) :: rest, rows =>
      let out := runRows σ rest rows
      if isDuplicateError msg then (out.1, out.2.1, out.2.2 + 1)
      else (out.1, out.2.1, out.2.2)
  | (r, none) :: rest, rows =>
      match stepRow σ r rows with
      | (rows1, RowOutcome.ins) =>
          let out := runRows σ rest rows1
          (out.1, out.2.1 + 1, out.2.2)
      | (rows1, RowOutcome.skip) =>
          let out := runRows σ rest rows1
          (out.1, out.2.1, out.2.2 + 1)
      | (rows1, RowOutcome.drop) =>
          let out := runRows σ rest rows1
          (out.1, out.2.1, out.2.2)

/-- `upsertTableData(tableName, data, columns)`: ensure the mirror table
exists, then reconcile each row (insert-or-skip).  Returns the resulting
mirror table and the `{inserted, skipped}` counters. -/
def upsertTableData (columns : List Col) (data : List Row) (mt : Option MirrorTable) :
    MirrorTable × Nat × Nat :=
  let t := createTableIfNotExists columns mt
  if data.isEmpty then (t, 0, 0)
  else
    let σ := mkCtx columns t
    let out := runRows σ (data.map (fun r => (r, none))) t.rows
    (⟨t.schema, out.1⟩, out.2.1, out.2.2)

/-! ### Lemmas about the backup reconciliation loop -/

/-- The fault-free instrumentation of a snapshot: no injected row errors. -/
def noFaults (data : List Row) : List (Row × Option String) :=
  data.map (fun r => (r, none))

theorem noFaults_nil : noFaults [] = [] := rfl

theorem noFaults_cons (r : Row) (rest : List Row) :
    noFaults (r :: rest) = (r, none) :: noFaults rest := rfl

theorem stepRow_refs_false {σ : Ctx} {r : Row} (rows : List MRow)
    (h : refsOk σ r = false) : stepRow σ r rows = (rows, RowOutcome.drop) := by
  simp [stepRow, h]

theorem stepRow_match {σ : Ctx} {r : Row} {rows : List MRow}
    (h1 : refsOk σ r = true) (h2 : rows.any (matchesRow σ r) = true) :
    stepRow σ r rows = (rows, RowOutcome.skip) := by
  simp [stepRow, h1, h2]

theorem stepRow_insert {σ : Ctx} {r : Row} {rows : List MRow}
    (h1 : refsOk σ r = true) (h2 : rows.any (matchesRow σ r) = false)
    (h3 : colsOk σ = true) :
    stepRow σ r rows = (rows ++ [insertRowFn σ.cols r], RowOutcome.ins) := by
  simp [stepRow, h1, h2, h3]

theorem stepRow_nocols {σ : Ctx} {r : Row} {rows : List MRow}
    (h1 : refsOk σ r = true) (h2 : rows.any (matchesRow σ r) = false)
    (h3 : colsOk σ = false) :
    stepRow σ r rows = (rows, RowOutcome.drop) := by
  simp [stepRow, h1, h2, h3]

theorem any_append_of_left {p : MRow → Bool} {rows ext : List MRow}
    (h : rows.any p = true) : (rows ++ ext).any p = true := by
  simp [List.any_append, h]

/-- The inserted mirror row stores, under each insert column, exactly the
serialized value the duplicate check would look for. -/
theorem mlookup_insertRowFn {c : String} (r : Row) :
    ∀ cols : List String, c ∈ cols →
      mlookup (insertRowFn cols r) c = serialize (rlookup r c) := by
  intro cols
  induction cols with
  | nil => intro h; cases h
  | cons c' cs ihc =>
    intro hmem
    by_cases hc : c' = c
    · subst hc
      simp [insertRowFn, mlookup, List.find?_cons_of_pos]
    · have hmem' : c ∈ cs := by
        cases hmem with
        | head => exact absurd rfl hc
        | tail _ h => exact h
      have := ihc hmem'
      simpa [insertRowFn, mlookup, List.find?_cons_of_neg, hc] using this

/-- A freshly inserted row matches its own source row's identity predicate
(on the id path this needs the `id` column to be among the insert columns). -/
theorem matchesRow_insertRowFn (σ : Ctx) (r : Row)
    (hid : idBranch σ r = true → "id" ∈ σ.cols) :
    matchesRow σ r (insertRowFn σ.cols r) = true := by
  unfold matchesRow
  cases hib : idBranch σ r with
  | true =>
    simp only [if_pos rfl]
    rw [mlookup_insertRowFn r σ.cols (hid hib)]
    simp
  | false =>
    rw [if_neg (by simp)]
    rw [List.all_eq_true]
    intro c hc
    rw [mlookup_insertRowFn r σ.cols hc]
    simp

/-- The fault-free reconciliation loop (every database call succeeds);
`runRows` on a fault-free instrumentation agrees with it. -/
def runRowsOk (σ : Ctx) : List Row → List MRow → List MRow × Nat × Nat
  | [], rows => (rows, 0, 0)
  | r :: rest, rows =>
      match stepRow σ r rows with
      | (rows1, RowOutcome.ins) =>
          let out := runRowsOk σ rest rows1
          (out.1, out.2.1 + 1, out.2.2)
      | (rows1, RowOutcome.skip) =>
          let out := runRowsOk σ rest rows1
          (out.1, out.2.1, out.2.2 + 1)
      | (rows1, RowOutcome.drop) =>
          let out := runRowsOk σ rest rows1
          (out.1, out.2.1, out.2.2)

theorem runRows_noFaults (σ : Ctx) :
    ∀ (data : List Row) (rows : List MRow),
      runRows σ (noFaults data) rows = runRowsOk σ data rows := by
  intro data
  induction data with
  | nil => intro rows; rfl
  | cons r rest ih =>
    intro rows
    rw [noFaults_cons]
    cases hs : stepRow σ r rows with
    | mk rows1 o =>
      cases o <;> simp [runRows, runRowsOk, hs, ih]

/-- When some insert column is missing from the mirror table, no row is
ever inserted: the mirror is left untouched and `inserted` stays 0 (each
row is either skipped on a match or dropped by the column error). -/
theorem runRowsOk_nocols (σ : Ctx) (hcols : colsOk σ = false) :
    ∀ (data : List Row) (rows : List MRow),
      (runRowsOk σ data rows).1 = rows ∧ (runRowsOk σ data rows).2.1 = 0 := by
  intro data
  induction data with
  | nil => intro rows; simp [runRowsOk]
  | cons r rest ih =>
    intro rows
    cases h1 : refsOk σ r with
    | false =>
      have hstep := stepRow_refs_false (σ := σ) (r := r) rows h1
      simpa [runRowsOk, hstep] using ih rows
    | true =>
      cases h2 : rows.any (matchesRow σ r) with
      | true =>
        have hstep := stepRow_match h1 h2
        simpa [runRowsOk, hstep] using ih rows
      | false =>
        have hstep := stepRow_nocols h1 h2 hcols
        simpa [runRowsOk, hstep] using ih rows

/-- Main invariant of the reconciliation loop (all insert columns present):
the run only appends to the mirror, and a rerun of the same snapshot from
the resulting mirror (or any further extension of it) changes nothing,
inserts nothing, and skips exactly `inserted + skipped` rows of the first
run.  The hypothesis on `data` says that a row taking the id check path
has `id` among the insert columns (true of rows drawn from the source
table, whose keys are the source's column names). -/
theorem runRowsOk_rerun (σ : Ctx) (hcols : colsOk σ = true) :
    ∀ (data : List Row) (rows : List MRow),
      (∀ r ∈ data, idBranch σ r = true → "id" ∈ σ.cols) →
      (∃ ext, (runRowsOk σ data rows).1 = rows ++ ext) ∧
      (∀ ext2,
        runRowsOk σ data ((runRowsOk σ data rows).1 ++ ext2)
          = ((runRowsOk σ data rows).1 ++ ext2, 0,
             (runRowsOk σ data rows).2.1 + (runRowsOk σ data rows).2.2)) := by
  intro data
  induction data with
  | nil =>
    intro rows _
    exact ⟨⟨[], by simp [runRowsOk]⟩, fun ext2 => by simp [runRowsOk]⟩
  | cons r rest ih =>
    intro rows hg
    have hgr : idBranch σ r = true → "id" ∈ σ.cols := hg r (by simp)
    have hgrest : ∀ r' ∈ rest, idBranch σ r' = true → "id" ∈ σ.cols :=
      fun r' hr' => hg r' (by simp [hr'])
    cases h1 : refsOk σ r with
    | false =>
      -- the check query errors out for this row: dropped on every run
      have hstep : ∀ rs : List MRow, stepRow σ r rs = (rs, RowOutcome.drop) :=
        fun rs => stepRow_refs_false rs h1
      obtain ⟨⟨ext, hext⟩, hrr⟩ := ih rows hgrest
      constructor
      · exact ⟨ext, by simp only [runRowsOk, hstep]; exact hext⟩
      · intro ext2
        have hthis := hrr ext2
        simp only [runRowsOk, hstep, hthis]
    | true =>
      cases h2 : rows.any (matchesRow σ r) with
      | true =>
        -- skipped on the first run; still matches on any extension
        have hstep := stepRow_match h1 h2
        obtain ⟨⟨ext, hext⟩, hrr⟩ := ih rows hgrest
        constructor
        · exact ⟨ext, by simp only [runRowsOk, hstep]; exact hext⟩
        · intro ext2
          have h2' : ((runRowsOk σ rest rows).1 ++ ext2).any (matchesRow σ r) = true := by
            rw [hext, List.append_assoc]
            exact any_append_of_left h2
          have hstep2 := stepRow_match h1 h2'
          have hthis := hrr ext2
          simp only [runRowsOk, hstep, hstep2, hthis, Prod.ext_iff]
          exact ⟨trivial, trivial, by omega⟩
      | false =>
        -- inserted on the first run; the inserted row itself matches later
        have hstep := stepRow_insert h1 h2 hcols
        obtain ⟨⟨ext, hext⟩, hrr⟩ := ih (rows ++ [insertRowFn σ.cols r]) hgrest
        constructor
        · refine ⟨[insertRowFn σ.cols r] ++ ext, ?_⟩
          simp only [runRowsOk, hstep]
          rw [hext, List.append_assoc]
        · intro ext2
          have hmem : insertRowFn σ.cols r
              ∈ (runRowsOk σ rest (rows ++ [insertRowFn σ.cols r])).1 ++ ext2 := by
            rw [hext]
            simp
          have h2' : ((runRowsOk σ rest (rows ++ [insertRowFn σ.cols r])).1
              ++ ext2).any (matchesRow σ r) = true := by
            rw [List.any_eq_true]
            exact ⟨insertRowFn σ.cols r, hmem, matchesRow_insertRowFn σ r hgr⟩
          have hstep2 := stepRow_match h1 h2'
          have hthis := hrr ext2
          simp only [runRowsOk, hstep, hstep2, hthis, Prod.ext_iff]
          exact ⟨trivial, trivial, by omega⟩

/-- A row taking the id check path has `id` among the sanitized insert
columns, provided its keys all come from the source's column names. -/
theorem idBranch_mem_cols (columns : List Col) (t : MirrorTable) (r : Row)
    (hkeys : ∀ p ∈ r, p.1 ∈ columns.map Col.name) :
    idBranch (mkCtx columns t) r = true → "id" ∈ (mkCtx columns t).cols := by
  intro hib
  unfold idBranch at hib
  rw [Bool.and_eq_true] at hib
  have hsome : (serialize (rlookup r "id")).isSome = true := hib.2
  unfold rlookup at hsome
  cases hf : rfind? r "id" with
  | none => rw [hf] at hsome; simp [serialize] at hsome
  | some v =>
    unfold rfind? at hf
    cases hfind : r.find? (fun p => decide (p.1 = "id")) with
    | none => rw [hfind] at hf; cases hf
    | some p =>
      have hmem : p ∈ r := List.mem_of_find?_eq_some hfind
      have hpred := List.find?_some hfind
      have hkey : p.1 = "id" := by simpa using hpred
      have hraw : "id" ∈ columns.map Col.name := hkey ▸ hkeys p hmem
      obtain ⟨c, hc, hcn⟩ := List.mem_map.mp hraw
      refine List.mem_map.mpr ⟨c, hc, ?_⟩
      rw [hcn]
      rfl

/-- Combined form of the loop invariant: the run appends, and a rerun of
the same snapshot from the resulting mirror is a no-op that only skips. -/
theorem runRowsOk_idem (σ : Ctx) (data : List Row) (rows : List MRow)
    (hgood : ∀ r ∈ data, idBranch σ r = true → "id" ∈ σ.cols) :
    (∃ ext, (runRowsOk σ data rows).1 = rows ++ ext) ∧
    runRowsOk σ data ((runRowsOk σ data rows).1)
      = ((runRowsOk σ data rows).1, 0,
         (runRowsOk σ data rows).2.1 + (runRowsOk σ data rows).2.2) := by
  cases hcols : colsOk σ with
  | true =>
    obtain ⟨hext, hrr⟩ := runRowsOk_rerun σ hcols data rows hgood
    refine ⟨hext, ?_⟩
    simpa using hrr []
  | false =>
    obtain ⟨h1, h2⟩ := runRowsOk_nocols σ hcols data rows
    refine ⟨⟨[], by simp [h1]⟩, ?_⟩
    have h3 : runRowsOk σ data ((runRowsOk σ data rows).1) = runRowsOk σ data rows := by
      rw [h1]
    rw [h3, Prod.ext_iff, Prod.ext_iff]
    refine ⟨rfl, h2, ?_⟩
    simp only []
    omega

theorem upsertTableData_eq (columns : List Col) (data : List Row) (mt : Option MirrorTable)
    (hne : data.isEmpty = false) :
    upsertTableData columns data mt
      = (⟨(createTableIfNotExists columns mt).schema,
          (runRowsOk (mkCtx columns (createTableIfNotExists columns mt)) data
            (createTableIfNotExists columns mt).rows).1⟩,
         (runRowsOk (mkCtx columns (createTableIfNotExists columns mt)) data
            (createTableIfNotExists columns mt).rows).2.1,
         (runRowsOk (mkCtx columns (createTableIfNotExists columns mt)) data
            (createTableIfNotExists columns mt).rows).2.2) := by
  unfold upsertTableData
  rw [hne]
  have hnf : data.map (fun r => (r, (none : Option String))) = noFaults data := rfl
  simp only [Bool.false_eq_true, if_false, hnf, runRows_noFaults]

/-- C1.  Backup idempotence: re-running `upsertTableData` on the same
snapshot of source rows inserts nothing, skips exactly the first run's
`inserted + skipped`, and leaves the mirror table exactly as the first
run left it; the first run itself only appends rows to the mirror (a
matching mirror row is never modified).  The hypothesis states that the
snapshot's rows carry only the source table's column names as keys, which
is guaranteed for rows produced by `SELECT *` from that table. -/
theorem upsertTableData_idempotent (columns : List Col) (data : List Row)
    (mt0 : Option MirrorTable)
    (hkeys : ∀ r ∈ data, ∀ p ∈ r, p.1 ∈ columns.map Col.name) :
    (upsertTableData columns data (some (upsertTableData columns data mt0).1)).2.1 = 0 ∧
    (upsertTableData columns data (some (upsertTableData columns data mt0).1)).2.2
      = (upsertTableData columns data mt0).2.1 + (upsertTableData columns data mt0).2.2 ∧
    (upsertTableData columns data (some (upsertTableData columns data mt0).1)).1
      = (upsertTableData columns data mt0).1 ∧
    (upsertTableData columns data mt0).1.schema
      = (createTableIfNotExists columns mt0).schema ∧
    ∃ ext, (upsertTableData columns data mt0).1.rows
      = (createTableIfNotExists columns mt0).rows ++ ext := by
  cases hne : data.isEmpty with
  | true =>
    have hd : data = [] := List.isEmpty_iff.mp hne
    subst hd
    simp [upsertTableData, createTableIfNotExists]
  | false =>
    set t0 := createTableIfNotExists columns mt0 with ht0
    set σ := mkCtx columns t0 with hσ
    have hgood : ∀ r ∈ data, idBranch σ r = true → "id" ∈ σ.cols :=
      fun r hr => idBranch_mem_cols columns t0 r (hkeys r hr)
    obtain ⟨⟨ext, hext⟩, hidem⟩ := runRowsOk_idem σ data t0.rows hgood
    have h1 := upsertTableData_eq columns data mt0 hne
    rw [← ht0] at h1
    -- the second run: the mirror table argument is exactly the first run's table
    have h2 := upsertTableData_eq columns data
      (some (⟨t0.schema, (runRowsOk σ data t0.rows).1⟩ : MirrorTable)) hne
    have hct : createTableIfNotExists columns
        (some (⟨t0.schema, (runRowsOk σ data t0.rows).1⟩ : MirrorTable))
        = ⟨t0.schema, (runRowsOk σ data t0.rows).1⟩ := rfl
    rw [hct] at h2
    have hctx : mkCtx columns (⟨t0.schema, (runRowsOk σ data t0.rows).1⟩ : MirrorTable) = σ := rfl
    rw [hctx] at h2
    rw [h1]
    simp only []
    rw [h2]
    simp only [hidem]
    exact ⟨trivial, trivial, trivial, trivial, ext, hext⟩

/-- Witness for C1 at a concrete input: a two-column table with an `id`
column, two rows, starting from no mirror table. -/
theorem upsertTableData_idempotent_witness :
    (∀ r ∈ [[("id", JsVal.prim "1"), ("name", JsVal.prim "a")],
            [("id", JsVal.prim "2"), ("name", JsVal.prim "b")]],
       ∀ p ∈ r, p.1 ∈ [Col.mk "id" "integer", Col.mk "name" "text"].map Col.name) ∧
    ((upsertTableData [Col.mk "id" "integer", Col.mk "name" "text"]
        [[("id", JsVal.prim "1"), ("name", JsVal.prim "a")],
         [("id", JsVal.prim "2"), ("name", JsVal.prim "b")]]
        (some (upsertTableData [Col.mk "id" "integer", Col.mk "name" "text"]
          [[("id", JsVal.prim "1"), ("name", JsVal.prim "a")],
           [("id", JsVal.prim "2"), ("name", JsVal.prim "b")]] none).1)).2.1 = 0 ∧
     (upsertTableData [Col.mk "id" "integer", Col.mk "name" "text"]
        [[("id", JsVal.prim "1"), ("name", JsVal.prim "a")],
         [("id", JsVal.prim "2"), ("name", JsVal.prim "b")]]
        (some (upsertTableData [Col.mk "id" "integer", Col.mk "name" "text"]
          [[("id", JsVal.prim "1"), ("name", JsVal.prim "a")],
           [("id", JsVal.prim "2"), ("name", JsVal.prim "b")]] none).1)).2.2
       = (upsertTableData [Col.mk "id" "integer", Col.mk "name" "text"]
            [[("id", JsVal.prim "1"), ("name", JsVal.prim "a")],
             [("id", JsVal.prim "2"), ("name", JsVal.prim "b")]] none).2.1
         + (upsertTableData [Col.mk "id" "integer", Col.mk "name" "text"]
              [[("id", JsVal.prim "1"), ("name", JsVal.prim "a")],
               [("id", JsVal.prim "2"), ("name", JsVal.prim "b")]] none).2.2) :=
  ⟨by decide,
   (upsertTableData_idempotent [Col.mk "id" "integer", Col.mk "name" "text"]
      [[("id", JsVal.prim "1"), ("name", JsVal.prim "a")],
       [("id", JsVal.prim "2"), ("name", JsVal.prim "b")]] none (by decide)).1,
   (upsertTableData_idempotent [Col.mk "id" "integer", Col.mk "name" "text"]
      [[("id", JsVal.prim "1"), ("name", JsVal.prim "a")],
       [("id", JsVal.prim "2"), ("name", JsVal.prim "b")]] none (by decide)).2.1⟩

theorem runRows_append (σ : Ctx) (a b : List (Row × Option String)) :
    ∀ rows : List MRow,
      runRows σ (a ++ b) rows
        = ((runRows σ b (runRows σ a rows).1).1,
           (runRows σ a rows).2.1 + (runRows σ b (runRows σ a rows).1).2.1,
           (runRows σ a rows).2.2 + (runRows σ b (runRows σ a rows).1).2.2) := by
  induction a with
  | nil => intro rows; simp [runRows]
  | cons hd rest ih =>
    intro rows
    obtain ⟨r, f⟩ := hd
    cases f with
    | none =>
      cases hs : stepRow σ r rows with
      | mk rows1 o =>
        cases o <;>
          · simp only [List.cons_append, runRows, hs]
            simp only [List.append_eq]
            rw [ih rows1]
            try simp
            try omega
    | some msg =>
      cases hdup : isDuplicateError msg <;>
        · simp only [List.cons_append, runRows, hdup]
          simp only [List.append_eq]
          rw [ih rows]
          try simp
          try omega

/-- C4.  Row-level error recovery in the backup loop: a per-row failure
whose message indicates a duplicate/unique/constraint violation adds 1 to
`skipped`; any other per-row failure changes neither counter; in both
cases the failing row leaves the mirror untouched and all remaining rows
of the batch are still processed normally (the batch is never aborted). -/
theorem runRows_rowError_recovery (σ : Ctx) (pre post : List (Row × Option String))
    (r : Row) (msg : String) (rows : List MRow) :
    runRows σ (pre ++ (r, some msg) :: post) rows
      = ((runRows σ post (runRows σ pre rows).1).1,
         (runRows σ pre rows).2.1 + (runRows σ post (runRows σ pre rows).1).2.1,
         (runRows σ pre rows).2.2 + (runRows σ post (runRows σ pre rows).1).2.2
           + (if isDuplicateError msg then 1 else 0)) := by
  rw [runRows_append]
  cases hdup : isDuplicateError msg <;>
    · simp only [runRows, hdup]
      try simp
      try omega

/-! ### Comparator: per-table progress and missing records
(Backend/services/comparisonService.js) -/

/-- A row as the comparator sees it: the string-converted value of its
`id` column (`findMissingRecords` applies `String(id)`, or `toString`
for bigints, before any set operation) and the remaining payload. -/
structure RRow where
  id : String
  payload : List (String × String)
deriving DecidableEq

/-- Iterating a JS `Set` built by insertion: first occurrence order,
duplicates collapsed. -/
def dedupFirstAux : List String → List String → List String
  | [], acc => acc
  | x :: xs, acc => dedupFirstAux xs (if x ∈ acc then acc else acc ++ [x])

def dedupFirst (l : List String) : List String :=
  dedupFirstAux l []

theorem mem_dedupFirstAux (l : List String) :
    ∀ (acc : List String) (x : String),
      x ∈ dedupFirstAux l acc ↔ x ∈ acc ∨ x ∈ l := by
  induction l with
  | nil => intro acc x; simp [dedupFirstAux]
  | cons hd tl ih =>
    intro acc x
    by_cases hhd : hd ∈ acc
    · rw [dedupFirstAux, if_pos hhd, ih]
      constructor
      · rintro (h | h)
        · exact Or.inl h
        · exact Or.inr (by simp [h])
      · rintro (h | h)
        · exact Or.inl h
        · rcases List.mem_cons.mp h with h' | h'
          · exact Or.inl (h' ▸ hhd)
          · exact Or.inr h'
    · rw [dedupFirstAux, if_neg hhd, ih]
      simp only [List.mem_append, List.mem_singleton, List.mem_cons]
      tauto

theorem mem_dedupFirst (l : List String) (x : String) :
    x ∈ dedupFirst l ↔ x ∈ l := by
  rw [dedupFirst, mem_dedupFirstAux]
  simp

theorem nodup_dedupFirstAux (l : List String) :
    ∀ acc : List String, acc.Nodup → (dedupFirstAux l acc).Nodup := by
  induction l with
  | nil => intro acc h; exact h
  | cons hd tl ih =>
    intro acc hacc
    by_cases hhd : hd ∈ acc
    · rw [dedupFirstAux, if_pos hhd]; exact ih acc hacc
    · rw [dedupFirstAux, if_neg hhd]
      refine ih _ ?_
      simp [List.nodup_append, hacc, hhd]

theorem nodup_dedupFirst (l : List String) : (dedupFirst l).Nodup :=
  nodup_dedupFirstAux l [] List.nodup_nil

/-- Result of `findMissingRecords`: the missing identity values, up to
100 fetched full records, and the true missing total. -/
structure FMResult where
  ids : List String
  records : List RRow
  totalMissing : Nat
deriving DecidableEq

/-- `findMissingRecords(databaseUrl, remoteTableName, backupTableName, ...)`:
collect the remote ids (a `Set`, insertion order), the mirror ids (a `Set`,
used only for membership), filter the remote ids not present in the
mirror, fetch full rows for the first 100 missing ids (`WHERE id IN (...)
LIMIT 100`), and report `totalMissing = missingIds.length`. -/
def findMissingRecords (remoteRows backupRows : List RRow) : FMResult :=
  let remoteIds := dedupFirst (remoteRows.map RRow.id)
  let backupIds := backupRows.map RRow.id
  let missingIds := remoteIds.filter (fun i => !(backupIds.contains i))
  let idsToFetch := missingIds.take 100
  let missingRecords := (remoteRows.filter (fun row => idsToFetch.contains row.id)).take 100
  ⟨missingIds, missingRecords, missingIds.length⟩

/-- Binary length of `n`: the number of binary digits (`0` for `0`),
computed with explicit structural fuel. -/
def bitlenAux : Nat → Nat → Nat
  | 0, _ => 0
  | fuel + 1, n => if n = 0 then 0 else bitlenAux fuel (n / 2) + 1

def bitlen (n : Nat) : Nat := bitlenAux (n + 1) n

/-- Decide `2 ^ E ≤ p / q` over ℚ using only natural cross-multiplication. -/
def pow2LEnd (E : Int) (p q : Nat) : Bool :=
  if 0 ≤ E then decide (q * 2 ^ E.toNat ≤ p) else decide (q ≤ p * 2 ^ (-E).toNat)

/-- The binade exponent of the positive rational `p / q`: the unique `E`
with `2 ^ E ≤ p / q < 2 ^ (E + 1)`. -/
def ilog2nd (p q : Nat) : Int :=
  let c : Int := (bitlen p : Int) - (bitlen q : Int)
  if pow2LEnd c p q then c else c - 1

/-- Round `p / q` to the nearest natural number, ties to even. -/
def roundHalfEvenND (p q : Nat) : Nat :=
  if q < 2 * (p % q) then p / q + 1
  else if 2 * (p % q) < q then p / q
  else if (p / q) % 2 = 0 then p / q else p / q + 1

/-- Round the nonnegative rational `p / q` to the nearest IEEE-754 binary64
value (round-to-nearest, ties-to-even — the JS semantics of `/` and `*` on
numbers in the normal range), returned as a mantissa/exponent pair
`(m, E)` denoting `m * 2 ^ (E - 52)`. -/
def fl64nd (p q : Nat) : Nat × Int :=
  (if 0 ≤ 52 - ilog2nd p q then roundHalfEvenND (p * 2 ^ (52 - ilog2nd p q).toNat) q
   else roundHalfEvenND p (q * 2 ^ (ilog2nd p q - 52).toNat),
   ilog2nd p q)

/-- The exact rational value of a mantissa/exponent pair. -/
def valQ (v : Nat × Int) : ℚ := (v.1 : ℚ) * (2 : ℚ) ^ (v.2 - 52)

/-- A mantissa/exponent pair as an exact fraction of naturals. -/
def scaledNumDen (v : Nat × Int) : Nat × Nat :=
  if 0 ≤ v.2 - 52 then (v.1 * 2 ^ (v.2 - 52).toNat, 1)
  else (v.1, 2 ^ (52 - v.2).toNat)

/-- ECMA `Math.round` of the nonnegative double `nd.1 / nd.2`:
`⌊nd.1 / nd.2 + 1/2⌋`, exact on the double's value, ties toward `+∞` —
computed on naturals. -/
def mathRoundND (nd : Nat × Nat) : Nat := (2 * nd.1 + nd.2) / (2 * nd.2)

/-- Evaluation of `Math.round((backupCount / remoteCount) * 100)` the way a
JS engine performs it: the division and the multiplication are each
correctly rounded to binary64, and `Math.round` acts exactly on the
resulting double (so e.g. `(201/200)*100` is the double
`100.49999999999999…`, which rounds to `100`, not `101`). -/
def jsProgress (remoteCount backupCount : Nat) : Nat :=
  mathRoundND (scaledNumDen (fl64nd (100 * (scaledNumDen (fl64nd backupCount remoteCount)).1)
    (scaledNumDen (fl64nd backupCount remoteCount)).2))

/-- Per-table progress of `compareBackupWithRemote`:
`Math.round((backupCount/remoteCount)*100)` in binary64 arithmetic when the
remote has rows, else 100 when the mirror has any rows, else 0.  The source
never clamps this value.  Faithful to JS for counts up to `2 ^ 53`
(integers in that range are exactly representable as doubles). -/
def tableProgress (remoteCount backupCount : Nat) : Nat :=
  if 0 < remoteCount then jsProgress remoteCount backupCount
  else if 0 < backupCount then 100 else 0

/-- Table status classification from the computed progress. -/
def tableStatusOf (progress : Nat) : String :=
  if progress = 100 then "fully_backed_up"
  else if 0 < progress then "partially_backed_up"
  else "not_backed_up"

/-- One entry of `comparison.tablesComparison` for a table present in the
mirror. -/
structure TableEntry where
  remoteCount : Nat
  backupCount : Nat
  difference : Int
  progress : Nat
  status : String
  missingRecordsCount : Nat
  missingRecordsIds : List String
  missingRecords : List RRow
deriving DecidableEq

/-- The per-table body of `compareBackupWithRemote` for a table that
exists in the mirror: counts, progress, status; missing records are
computed only when `remoteCount > backupCount && remoteCount > 0`, and the
report carries `missingRecordsCount = totalMissing` next to the capped
`slice(0, 100)` samples of ids and full records. -/
def compareTableEntry (remoteRows backupRows : List RRow) : TableEntry :=
  let remoteCount := remoteRows.length
  let backupCount := backupRows.length
  let progress := tableProgress remoteCount backupCount
  let status := tableStatusOf progress
  if remoteCount > backupCount ∧ remoteCount > 0 then
    let fm := findMissingRecords remoteRows backupRows
    ⟨remoteCount, backupCount, (remoteCount : Int) - (backupCount : Int), progress, status,
     fm.totalMissing, fm.ids.take 100, fm.records.take 100⟩
  else
    ⟨remoteCount, backupCount, (remoteCount : Int) - (backupCount : Int), progress, status,
     0, [], []⟩

theorem compareTableEntry_progress (remoteRows backupRows : List RRow) :
    (compareTableEntry remoteRows backupRows).progress
      = tableProgress remoteRows.length backupRows.length := by
  simp only [compareTableEntry]
  split <;> rfl

theorem bitlenAux_zero : ∀ fuel, bitlenAux fuel 0 = 0 := by
  intro fuel; cases fuel <;> simp [bitlenAux]

theorem bitlenAux_spec : ∀ fuel n, n ≤ fuel → 1 ≤ n →
    2 ^ (bitlenAux fuel n - 1) ≤ n ∧ n < 2 ^ (bitlenAux fuel n) ∧ 1 ≤ bitlenAux fuel n := by
  intro fuel
  induction fuel with
  | zero => intro n hn h1; omega
  | succ f ih =>
    intro n hn h1
    rw [bitlenAux, if_neg (by omega : ¬ n = 0)]
    by_cases h2 : n / 2 = 0
    · have hn1 : n = 1 := by omega
      subst hn1
      norm_num [h2, bitlenAux_zero]
    · have h2' : 1 ≤ n / 2 := by omega
      obtain ⟨ha, hb, hc⟩ := ih (n / 2) (by omega) h2'
      refine ⟨?_, ?_, by omega⟩
      · show 2 ^ (bitlenAux f (n / 2) + 1 - 1) ≤ n
        have e : bitlenAux f (n / 2) + 1 - 1 = (bitlenAux f (n / 2) - 1) + 1 := by omega
        rw [e, pow_succ]
        calc 2 ^ (bitlenAux f (n / 2) - 1) * 2 ≤ (n / 2) * 2 :=
              Nat.mul_le_mul_right 2 ha
          _ ≤ n := by omega
      · show n < 2 ^ (bitlenAux f (n / 2) + 1)
        rw [pow_succ]
        have : n / 2 + 1 ≤ 2 ^ bitlenAux f (n / 2) := hb
        calc n < (n / 2 + 1) * 2 := by omega
          _ ≤ 2 ^ bitlenAux f (n / 2) * 2 := Nat.mul_le_mul_right 2 this

theorem bitlen_spec (n : Nat) (h : 1 ≤ n) :
    2 ^ (bitlen n - 1) ≤ n ∧ n < 2 ^ (bitlen n) ∧ 1 ≤ bitlen n :=
  bitlenAux_spec (n + 1) n (by omega) h

theorem cast_two_pow (a : ℕ) : ((2 ^ a : ℕ) : ℚ) = (2 : ℚ) ^ ((a : ℕ) : ℤ) := by
  rw [zpow_natCast]; push_cast; ring

theorem cast_pow_div (a b : ℕ) :
    ((2 ^ a : ℕ) : ℚ) / ((2 ^ b : ℕ) : ℚ) = (2 : ℚ) ^ ((a : ℤ) - (b : ℤ)) := by
  rw [zpow_sub₀ (two_ne_zero), zpow_natCast, zpow_natCast]
  push_cast
  ring

theorem pow2LEnd_iff (E : Int) (p q : Nat) (hq : 1 ≤ q) :
    pow2LEnd E p q = true ↔ (2 : ℚ) ^ E ≤ (p : ℚ) / (q : ℚ) := by
  have hq0 : (0 : ℚ) < (q : ℚ) := by exact_mod_cast hq
  unfold pow2LEnd
  by_cases hE : 0 ≤ E
  · rw [if_pos hE, decide_eq_true_eq]
    have h2 : (2 : ℚ) ^ E = ((2 ^ E.toNat : ℕ) : ℚ) := by
      rw [cast_two_pow, Int.toNat_of_nonneg hE]
    rw [h2, le_div_iff₀ hq0, mul_comm, ← Nat.cast_mul, Nat.cast_le]
  · rw [if_neg hE, decide_eq_true_eq]
    have hE' : 0 ≤ -E := by omega
    have hpow : (0 : ℚ) < ((2 ^ (-E).toNat : ℕ) : ℚ) := by
      have : 0 < (2 : ℕ) ^ (-E).toNat := pow_pos (by norm_num) _
      exact_mod_cast this
    have h2 : (2 : ℚ) ^ E = 1 / ((2 ^ (-E).toNat : ℕ) : ℚ) := by
      rw [cast_two_pow, Int.toNat_of_nonneg hE', one_div, ← zpow_neg, neg_neg]
    rw [h2, div_le_div_iff₀ hpow hq0, one_mul, ← Nat.cast_mul, Nat.cast_le]

theorem ilog2nd_def (p q : Nat) :
    ilog2nd p q = if pow2LEnd ((bitlen p : ℤ) - (bitlen q : ℤ)) p q
      then (bitlen p : ℤ) - (bitlen q : ℤ) else (bitlen p : ℤ) - (bitlen q : ℤ) - 1 := rfl

theorem ilog2nd_spec (p q : Nat) (hp : 1 ≤ p) (hq : 1 ≤ q) :
    (2 : ℚ) ^ ilog2nd p q ≤ (p : ℚ) / (q : ℚ) ∧
      (p : ℚ) / (q : ℚ) < (2 : ℚ) ^ (ilog2nd p q + 1) := by
  obtain ⟨hpa, hpb, hpc⟩ := bitlen_spec p hp
  obtain ⟨hqa, hqb, hqc⟩ := bitlen_spec q hq
  have hq0 : (0 : ℚ) < (q : ℚ) := by exact_mod_cast hq
  have hbp : (0 : ℚ) < ((2 ^ (bitlen q - 1) : ℕ) : ℚ) := by
    have : 0 < (2 : ℕ) ^ (bitlen q - 1) := pow_pos (by norm_num) _
    exact_mod_cast this
  have hbq : (0 : ℚ) < ((2 ^ bitlen q : ℕ) : ℚ) := by
    have : 0 < (2 : ℕ) ^ bitlen q := pow_pos (by norm_num) _
    exact_mod_cast this
  have hup : (p : ℚ) / (q : ℚ) <
      (2 : ℚ) ^ ((bitlen p : ℤ) - (bitlen q : ℤ) + 1) := by
    have key : (p : ℚ) / (q : ℚ) <
        ((2 ^ bitlen p : ℕ) : ℚ) / ((2 ^ (bitlen q - 1) : ℕ) : ℚ) := by
      rw [div_lt_div_iff₀ hq0 hbp]
      have hnat : p * 2 ^ (bitlen q - 1) < 2 ^ bitlen p * q := by
        calc p * 2 ^ (bitlen q - 1) < 2 ^ bitlen p * 2 ^ (bitlen q - 1) :=
              (Nat.mul_lt_mul_right (pow_pos (by norm_num) _)).mpr hpb
          _ ≤ 2 ^ bitlen p * q := Nat.mul_le_mul_left _ hqa
      exact_mod_cast hnat
    rw [cast_pow_div] at key
    have he : ((bitlen p : ℕ) : ℤ) - ((bitlen q - 1 : ℕ) : ℤ)
        = (bitlen p : ℤ) - (bitlen q : ℤ) + 1 := by omega
    rw [he] at key
    exact key
  have hlo : (2 : ℚ) ^ ((bitlen p : ℤ) - (bitlen q : ℤ) - 1) < (p : ℚ) / (q : ℚ) := by
    have key : ((2 ^ (bitlen p - 1) : ℕ) : ℚ) / ((2 ^ bitlen q : ℕ) : ℚ)
        < (p : ℚ) / (q : ℚ) := by
      rw [div_lt_div_iff₀ hbq hq0]
      have hnat : 2 ^ (bitlen p - 1) * q < p * 2 ^ bitlen q := by
        calc 2 ^ (bitlen p - 1) * q < 2 ^ (bitlen p - 1) * 2 ^ bitlen q :=
              (Nat.mul_lt_mul_left (pow_pos (by norm_num) _)).mpr hqb
          _ ≤ p * 2 ^ bitlen q := Nat.mul_le_mul_right _ hpa
      exact_mod_cast hnat
    rw [cast_pow_div] at key
    have he : ((bitlen p - 1 : ℕ) : ℤ) - ((bitlen q : ℕ) : ℤ)
        = (bitlen p : ℤ) - (bitlen q : ℤ) - 1 := by omega
    rw [he] at key
    exact key
  cases hle : pow2LEnd ((bitlen p : ℤ) - (bitlen q : ℤ)) p q
  · have hnot : ¬ (2 : ℚ) ^ ((bitlen p : ℤ) - (bitlen q : ℤ)) ≤ (p : ℚ) / (q : ℚ) := by
      rw [← pow2LEnd_iff _ _ _ hq]
      simp [hle]
    rw [ilog2nd_def, hle]
    simp only [Bool.false_eq_true, if_false]
    refine ⟨le_of_lt hlo, ?_⟩
    rw [show (bitlen p : ℤ) - (bitlen q : ℤ) - 1 + 1 = (bitlen p : ℤ) - (bitlen q : ℤ) by ring]
    exact lt_of_not_le hnot
  · have hyes : (2 : ℚ) ^ ((bitlen p : ℤ) - (bitlen q : ℤ)) ≤ (p : ℚ) / (q : ℚ) := by
      rw [← pow2LEnd_iff _ _ _ hq]
      exact hle
    rw [ilog2nd_def, hle]
    simp only [if_true]
    exact ⟨hyes, hup⟩

/-- Value-level round-to-nearest-even on ℚ (proof companion of
`roundHalfEvenND`). -/
def roundHalfEvenQ (x : ℚ) : ℤ :=
  if (1 : ℚ) / 2 < x - ⌊x⌋ then ⌊x⌋ + 1
  else if x - ⌊x⌋ < (1 : ℚ) / 2 then ⌊x⌋
  else if ⌊x⌋ % 2 = 0 then ⌊x⌋ else ⌊x⌋ + 1

theorem roundHalfEvenQ_le (x : ℚ) : (roundHalfEvenQ x : ℚ) ≤ x + 1 / 2 := by
  have h1 := Int.floor_le x
  have h2 := Int.lt_floor_add_one x
  unfold roundHalfEvenQ
  split_ifs <;> push_cast <;> linarith

theorem le_roundHalfEvenQ (x : ℚ) : x - 1 / 2 ≤ (roundHalfEvenQ x : ℚ) := by
  have h1 := Int.floor_le x
  have h2 := Int.lt_floor_add_one x
  unfold roundHalfEvenQ
  split_ifs <;> push_cast <;> linarith

theorem roundHalfEvenQ_mono {x y : ℚ} (h : x ≤ y) :
    roundHalfEvenQ x ≤ roundHalfEvenQ y := by
  by_contra hc
  push_neg at hc
  have h1 : (roundHalfEvenQ y : ℚ) + 1 ≤ (roundHalfEvenQ x : ℚ) := by
    exact_mod_cast Int.add_one_le_iff.mpr hc
  have h2 := roundHalfEvenQ_le x
  have h3 := le_roundHalfEvenQ y
  have hxy : x = y := by linarith
  rw [hxy] at hc
  exact lt_irrefl _ hc

theorem floor_natCast_div (p q : Nat) (hq : 1 ≤ q) :
    ⌊(p : ℚ) / (q : ℚ)⌋ = ((p / q : ℕ) : ℤ) := by
  have hq0 : (0 : ℚ) < (q : ℚ) := by exact_mod_cast hq
  rw [Int.floor_eq_iff]
  constructor
  · rw [le_div_iff₀ hq0]
    push_cast
    exact_mod_cast Nat.div_mul_le_self p q
  · rw [div_lt_iff₀ hq0]
    have hnat : p < (p / q + 1) * q := by
      calc p = q * (p / q) + p % q := (Nat.div_add_mod p q).symm
        _ < q * (p / q) + q := Nat.add_lt_add_left (Nat.mod_lt p (by omega)) _
        _ = (p / q + 1) * q := by ring
    push_cast
    exact_mod_cast hnat

theorem roundHalfEvenND_eq (p q : Nat) (hq : 1 ≤ q) :
    (roundHalfEvenND p q : ℤ) = roundHalfEvenQ ((p : ℚ) / (q : ℚ)) := by
  have hq0 : (0 : ℚ) < (q : ℚ) := by exact_mod_cast hq
  have hfl := floor_natCast_div p q hq
  have hfr : (p : ℚ) / (q : ℚ) - ((p / q : ℕ) : ℚ) = ((p % q : ℕ) : ℚ) / (q : ℚ) := by
    have hp' : (p : ℚ) = (q : ℚ) * ((p / q : ℕ) : ℚ) + ((p % q : ℕ) : ℚ) := by
      exact_mod_cast (congrArg (Nat.cast : ℕ → ℚ) (Nat.div_add_mod p q)).symm
    field_simp
    linarith [hp']
  have hx1 : (p : ℚ) / (q : ℚ) - ((⌊(p : ℚ) / (q : ℚ)⌋ : ℤ) : ℚ)
      = ((p % q : ℕ) : ℚ) / (q : ℚ) := by
    rw [hfl]
    push_cast
    push_cast at hfr
    exact hfr
  have hlt1 : ((1 : ℚ) / 2 < ((p % q : ℕ) : ℚ) / (q : ℚ)) ↔ q < 2 * (p % q) := by
    rw [div_lt_div_iff₀ (by norm_num) hq0, one_mul,
      show ((p % q : ℕ) : ℚ) * 2 = ((p % q * 2 : ℕ) : ℚ) by push_cast; ring, Nat.cast_lt]
    omega
  have hlt2 : (((p % q : ℕ) : ℚ) / (q : ℚ) < (1 : ℚ) / 2) ↔ 2 * (p % q) < q := by
    rw [div_lt_div_iff₀ hq0 (by norm_num), one_mul,
      show ((p % q : ℕ) : ℚ) * 2 = ((p % q * 2 : ℕ) : ℚ) by push_cast; ring, Nat.cast_lt]
    omega
  unfold roundHalfEvenQ roundHalfEvenND
  rw [hx1, hfl]
  rcases Nat.lt_trichotomy (2 * (p % q)) q with hc | hc | hc
  · rw [if_neg (by omega : ¬ q < 2 * (p % q)), if_pos hc,
      if_neg (by rw [hlt1]; omega), if_pos (by rw [hlt2]; omega)]
  · rw [if_neg (by omega : ¬ q < 2 * (p % q)), if_neg (by omega : ¬ 2 * (p % q) < q)]
    by_cases hpar : (p / q) % 2 = 0
    · rw [if_pos hpar, if_neg (by rw [hlt1]; omega), if_neg (by rw [hlt2]; omega),
        if_pos (by omega : ((p / q : ℕ) : ℤ) % 2 = 0)]
    · rw [if_neg hpar, if_neg (by rw [hlt1]; omega), if_neg (by rw [hlt2]; omega),
        if_neg (by omega : ¬ ((p / q : ℕ) : ℤ) % 2 = 0)]
      push_cast
      ring
  · rw [if_pos hc, if_pos (by rw [hlt1]; omega)]
    push_cast
    ring

theorem fl64nd_exp (p q : Nat) : (fl64nd p q).2 = ilog2nd p q := rfl

theorem valQ_nonneg (v : Nat × Int) : 0 ≤ valQ v := by
  unfold valQ
  positivity

theorem fl64nd_num (p q : Nat) (hq : 1 ≤ q) :
    ((fl64nd p q).1 : ℤ)
      = roundHalfEvenQ ((p : ℚ) / (q : ℚ) * (2 : ℚ) ^ (52 - ilog2nd p q)) := by
  by_cases hc : 0 ≤ 52 - ilog2nd p q
  · simp only [fl64nd, if_pos hc]
    rw [roundHalfEvenND_eq _ _ hq]
    congr 1
    push_cast
    rw [show ((2 : ℚ) ^ (52 - ilog2nd p q).toNat : ℚ) = (2 : ℚ) ^ (52 - ilog2nd p q) by
      rw [← zpow_natCast, Int.toNat_of_nonneg hc]]
    ring
  · simp only [fl64nd, if_neg hc]
    have hq' : 1 ≤ q * 2 ^ (ilog2nd p q - 52).toNat := by
      have := Nat.mul_pos (show 0 < q by omega)
        (pow_pos (show 0 < 2 by norm_num) (ilog2nd p q - 52).toNat)
      omega
    rw [roundHalfEvenND_eq _ _ hq']
    congr 1
    push_cast
    rw [show ((2 : ℚ) ^ (ilog2nd p q - 52).toNat : ℚ) = (2 : ℚ) ^ (ilog2nd p q - 52) by
      rw [← zpow_natCast, Int.toNat_of_nonneg (by omega)]]
    rw [show (52 - ilog2nd p q : ℤ) = -(ilog2nd p q - 52) by ring, zpow_neg]
    have h2 : ((2 : ℚ) ^ (ilog2nd p q - 52) : ℚ) ≠ 0 := by positivity
    have hqQ : ((q : ℚ) : ℚ) ≠ 0 := by
      have : (0 : ℚ) < (q : ℚ) := by exact_mod_cast hq
      linarith
    field_simp

theorem fl64nd_bounds (p q : Nat) (hp : 1 ≤ p) (hq : 1 ≤ q) :
    (2 : ℚ) ^ ilog2nd p q ≤ valQ (fl64nd p q) ∧
      valQ (fl64nd p q) ≤ (2 : ℚ) ^ (ilog2nd p q + 1) := by
  obtain ⟨hl, hu⟩ := ilog2nd_spec p q hp hq
  have hpow : (0 : ℚ) < (2 : ℚ) ^ (52 - ilog2nd p q) := by positivity
  have hs_lo : (2 : ℚ) ^ (52 : ℤ) ≤ (p : ℚ) / (q : ℚ) * (2 : ℚ) ^ (52 - ilog2nd p q) := by
    calc (2 : ℚ) ^ (52 : ℤ)
        = (2 : ℚ) ^ ilog2nd p q * (2 : ℚ) ^ (52 - ilog2nd p q) := by
          rw [← zpow_add₀ (two_ne_zero), show ilog2nd p q + (52 - ilog2nd p q) = 52 by ring]
      _ ≤ (p : ℚ) / (q : ℚ) * (2 : ℚ) ^ (52 - ilog2nd p q) :=
          mul_le_mul_of_nonneg_right hl (le_of_lt hpow)
  have hs_hi : (p : ℚ) / (q : ℚ) * (2 : ℚ) ^ (52 - ilog2nd p q) < (2 : ℚ) ^ (53 : ℤ) := by
    calc (p : ℚ) / (q : ℚ) * (2 : ℚ) ^ (52 - ilog2nd p q)
        < (2 : ℚ) ^ (ilog2nd p q + 1) * (2 : ℚ) ^ (52 - ilog2nd p q) :=
          mul_lt_mul_of_pos_right hu hpow
      _ = (2 : ℚ) ^ (53 : ℤ) := by
          rw [← zpow_add₀ (two_ne_zero), show ilog2nd p q + 1 + (52 - ilog2nd p q) = 53 by ring]
  have hm := fl64nd_num p q hq
  have hmQ : (((fl64nd p q).1 : ℕ) : ℚ)
      = ((roundHalfEvenQ ((p : ℚ) / (q : ℚ) * (2 : ℚ) ^ (52 - ilog2nd p q)) : ℤ) : ℚ) := by
    exact_mod_cast congrArg (Int.cast : ℤ → ℚ) hm
  have hrle := roundHalfEvenQ_le ((p : ℚ) / (q : ℚ) * (2 : ℚ) ^ (52 - ilog2nd p q))
  have hler := le_roundHalfEvenQ ((p : ℚ) / (q : ℚ) * (2 : ℚ) ^ (52 - ilog2nd p q))
  have hcast52 : (2 : ℚ) ^ (52 : ℤ) = (((2 : ℤ) ^ (52 : ℕ) : ℤ) : ℚ) := by
    rw [Int.cast_pow]
    rw [show ((52 : ℤ)) = ((52 : ℕ) : ℤ) from rfl, zpow_natCast]
    norm_num
  have hcast53 : (2 : ℚ) ^ (53 : ℤ) = (((2 : ℤ) ^ (53 : ℕ) : ℤ) : ℚ) := by
    rw [Int.cast_pow]
    rw [show ((53 : ℤ)) = ((53 : ℕ) : ℤ) from rfl, zpow_natCast]
    norm_num
  have hm_lo : ((2 : ℤ) ^ (52 : ℕ) : ℤ) ≤ ((fl64nd p q).1 : ℤ) := by
    have h1 : (((2 : ℤ) ^ (52 : ℕ) : ℤ) : ℚ) - 1 < (((fl64nd p q).1 : ℕ) : ℚ) := by
      rw [hmQ]
      rw [hcast52] at hs_lo
      linarith
    have h2 : ((2 : ℤ) ^ (52 : ℕ) : ℤ) - 1 < ((fl64nd p q).1 : ℤ) := by
      exact_mod_cast h1
    omega
  have hm_hi : ((fl64nd p q).1 : ℤ) ≤ ((2 : ℤ) ^ (53 : ℕ) : ℤ) := by
    have h1 : (((fl64nd p q).1 : ℕ) : ℚ) < (((2 : ℤ) ^ (53 : ℕ) : ℤ) : ℚ) + 1 := by
      rw [hmQ]
      rw [hcast53] at hs_hi
      linarith
    have h2 : ((fl64nd p q).1 : ℤ) < ((2 : ℤ) ^ (53 : ℕ) : ℤ) + 1 := by
      exact_mod_cast h1
    omega
  have hpow2 : (0 : ℚ) < (2 : ℚ) ^ (ilog2nd p q - 52) := by positivity
  have hmQ_lo : (2 : ℚ) ^ (52 : ℤ) ≤ (((fl64nd p q).1 : ℕ) : ℚ) := by
    rw [hcast52]
    exact_mod_cast hm_lo
  have hmQ_hi : (((fl64nd p q).1 : ℕ) : ℚ) ≤ (2 : ℚ) ^ (53 : ℤ) := by
    rw [hcast53]
    exact_mod_cast hm_hi
  constructor
  · calc (2 : ℚ) ^ ilog2nd p q
        = (2 : ℚ) ^ (52 : ℤ) * (2 : ℚ) ^ (ilog2nd p q - 52) := by
          rw [← zpow_add₀ (two_ne_zero), show (52 : ℤ) + (ilog2nd p q - 52) = ilog2nd p q by ring]
      _ ≤ (((fl64nd p q).1 : ℕ) : ℚ) * (2 : ℚ) ^ (ilog2nd p q - 52) :=
          mul_le_mul_of_nonneg_right hmQ_lo (le_of_lt hpow2)
      _ = valQ (fl64nd p q) := by rw [valQ, fl64nd_exp]
  · calc valQ (fl64nd p q)
        = (((fl64nd p q).1 : ℕ) : ℚ) * (2 : ℚ) ^ (ilog2nd p q - 52) := by rw [valQ, fl64nd_exp]
      _ ≤ (2 : ℚ) ^ (53 : ℤ) * (2 : ℚ) ^ (ilog2nd p q - 52) :=
          mul_le_mul_of_nonneg_right hmQ_hi (le_of_lt hpow2)
      _ = (2 : ℚ) ^ (ilog2nd p q + 1) := by
          rw [← zpow_add₀ (two_ne_zero), show (53 : ℤ) + (ilog2nd p q - 52) = ilog2nd p q + 1 by ring]

theorem roundHalfEvenQ_zero : roundHalfEvenQ 0 = 0 := by
  unfold roundHalfEvenQ
  norm_num

theorem fl64nd_zero_val (q : Nat) (hq : 1 ≤ q) : valQ (fl64nd 0 q) = 0 := by
  have hm := fl64nd_num 0 q hq
  rw [show ((0 : ℕ) : ℚ) / (q : ℚ) * (2 : ℚ) ^ (52 - ilog2nd 0 q) = 0 by
    push_cast; ring] at hm
  rw [roundHalfEvenQ_zero] at hm
  have hm0 : (fl64nd 0 q).1 = 0 := by exact_mod_cast hm
  rw [valQ, hm0]
  push_cast
  ring

theorem fl64nd_mono (p1 q1 p2 q2 : Nat) (hq1 : 1 ≤ q1) (hq2 : 1 ≤ q2)
    (h : (p1 : ℚ) / (q1 : ℚ) ≤ (p2 : ℚ) / (q2 : ℚ)) :
    valQ (fl64nd p1 q1) ≤ valQ (fl64nd p2 q2) := by
  by_cases hp1 : p1 = 0
  · subst hp1
    rw [fl64nd_zero_val q1 hq1]
    exact valQ_nonneg _
  · have hp1' : 1 ≤ p1 := by omega
    have hq10 : (0 : ℚ) < (q1 : ℚ) := by exact_mod_cast hq1
    have hpos : (0 : ℚ) < (p1 : ℚ) / (q1 : ℚ) := by
      apply div_pos _ hq10
      exact_mod_cast hp1'
    have hp2' : 1 ≤ p2 := by
      by_contra hp2
      have hp20 : p2 = 0 := by omega
      subst hp20
      rw [show ((0 : ℕ) : ℚ) / (q2 : ℚ) = 0 by push_cast; ring] at h
      linarith
    obtain ⟨hl1, hu1⟩ := ilog2nd_spec p1 q1 hp1' hq1
    obtain ⟨hl2, hu2⟩ := ilog2nd_spec p2 q2 hp2' hq2
    have hE : ilog2nd p1 q1 ≤ ilog2nd p2 q2 := by
      by_contra hE'
      push_neg at hE'
      have hz := zpow_le_zpow_right₀ (by norm_num : (1 : ℚ) ≤ 2)
        (by omega : ilog2nd p2 q2 + 1 ≤ ilog2nd p1 q1)
      linarith
    rcases eq_or_lt_of_le hE with hEe | hElt
    · have hm1 := fl64nd_num p1 q1 hq1
      have hm2 := fl64nd_num p2 q2 hq2
      have hsle : (p1 : ℚ) / (q1 : ℚ) * (2 : ℚ) ^ (52 - ilog2nd p1 q1)
          ≤ (p2 : ℚ) / (q2 : ℚ) * (2 : ℚ) ^ (52 - ilog2nd p2 q2) := by
        rw [← hEe]
        exact mul_le_mul_of_nonneg_right h (by positivity)
      have hmle := roundHalfEvenQ_mono hsle
      have hmle' : ((fl64nd p1 q1).1 : ℤ) ≤ ((fl64nd p2 q2).1 : ℤ) := by
        rw [hm1, hm2]
        exact hmle
      have hmn : (fl64nd p1 q1).1 ≤ (fl64nd p2 q2).1 := by exact_mod_cast hmle'
      rw [valQ, valQ, fl64nd_exp, fl64nd_exp, ← hEe]
      apply mul_le_mul_of_nonneg_right _ (by positivity)
      exact_mod_cast hmn
    · have b1 := (fl64nd_bounds p1 q1 hp1' hq1).2
      have b2 := (fl64nd_bounds p2 q2 hp2' hq2).1
      have hz := zpow_le_zpow_right₀ (by norm_num : (1 : ℚ) ≤ 2)
        (by omega : ilog2nd p1 q1 + 1 ≤ ilog2nd p2 q2)
      linarith

theorem scaledNumDen_den_pos (v : Nat × Int) : 1 ≤ (scaledNumDen v).2 := by
  unfold scaledNumDen
  split_ifs <;> simp [Nat.one_le_two_pow]

theorem scaledNumDen_val (v : Nat × Int) :
    ((scaledNumDen v).1 : ℚ) / ((scaledNumDen v).2 : ℚ) = valQ v := by
  unfold scaledNumDen valQ
  by_cases hc : 0 ≤ v.2 - 52
  · rw [if_pos hc]
    push_cast
    rw [show ((2 : ℚ) ^ (v.2 - 52).toNat : ℚ) = (2 : ℚ) ^ (v.2 - 52) by
      rw [← zpow_natCast, Int.toNat_of_nonneg hc]]
    ring
  · rw [if_neg hc]
    push_cast
    rw [show ((2 : ℚ) ^ (52 - v.2).toNat : ℚ) = (2 : ℚ) ^ (52 - v.2) by
      rw [← zpow_natCast, Int.toNat_of_nonneg (by omega)]]
    rw [show (v.2 - 52 : ℤ) = -(52 - v.2) by ring, zpow_neg]
    rw [div_eq_mul_inv]

theorem fl64nd_one_val : valQ (fl64nd 1 1) = 1 := by
  rw [show fl64nd 1 1 = (2 ^ 52, 0) from by decide, valQ]
  rw [Nat.cast_pow, show ((0 : ℤ) - 52) = -((52 : ℕ) : ℤ) by norm_num, zpow_neg, zpow_natCast]
  norm_num

theorem fl64nd_hundred_val : valQ (fl64nd 100 1) = 100 := by
  rw [show fl64nd 100 1 = (100 * 2 ^ 46, 6) from by decide, valQ]
  rw [Nat.cast_mul, Nat.cast_pow, show ((6 : ℤ) - 52) = -((46 : ℕ) : ℤ) by norm_num,
    zpow_neg, zpow_natCast]
  norm_num

theorem jsProgress_le_100 (r b : Nat) (hr : 1 ≤ r) (h : b ≤ r) :
    jsProgress r b ≤ 100 := by
  have hx : valQ (fl64nd b r) ≤ 1 := by
    have h1 : (b : ℚ) / (r : ℚ) ≤ ((1 : ℕ) : ℚ) / ((1 : ℕ) : ℚ) := by
      rw [show (((1 : ℕ)) : ℚ) = (1 : ℚ) by norm_num, div_one,
        div_le_one (show (0 : ℚ) < (r : ℚ) by exact_mod_cast hr)]
      exact_mod_cast h
    have hm := fl64nd_mono b r 1 1 hr (by norm_num) h1
    rw [fl64nd_one_val] at hm
    exact hm
  unfold jsProgress
  set xnd := scaledNumDen (fl64nd b r) with hxnd
  have hxnd_val : (xnd.1 : ℚ) / (xnd.2 : ℚ) = valQ (fl64nd b r) := scaledNumDen_val _
  have hxnd_pos : 1 ≤ xnd.2 := scaledNumDen_den_pos _
  have hxnd2Q : (0 : ℚ) < (xnd.2 : ℚ) := by exact_mod_cast hxnd_pos
  have hx12 : (xnd.1 : ℚ) ≤ (xnd.2 : ℚ) := by
    have hle : (xnd.1 : ℚ) / (xnd.2 : ℚ) ≤ 1 := by rw [hxnd_val]; exact hx
    rw [div_le_one hxnd2Q] at hle
    exact hle
  have hy_in : ((100 * xnd.1 : ℕ) : ℚ) / (xnd.2 : ℚ) ≤ ((100 : ℕ) : ℚ) / ((1 : ℕ) : ℚ) := by
    push_cast
    rw [div_one, div_le_iff₀ hxnd2Q]
    linarith
  have hy := fl64nd_mono (100 * xnd.1) xnd.2 100 1 hxnd_pos (by norm_num) hy_in
  rw [fl64nd_hundred_val] at hy
  set ynd := scaledNumDen (fl64nd (100 * xnd.1) xnd.2) with hynd
  have hynd_val : (ynd.1 : ℚ) / (ynd.2 : ℚ) = valQ (fl64nd (100 * xnd.1) xnd.2) :=
    scaledNumDen_val _
  have hynd_pos : 1 ≤ ynd.2 := scaledNumDen_den_pos _
  have hynd2Q : (0 : ℚ) < (ynd.2 : ℚ) := by exact_mod_cast hynd_pos
  have hPQ : ynd.1 ≤ 100 * ynd.2 := by
    have hle : (ynd.1 : ℚ) / (ynd.2 : ℚ) ≤ 100 := by rw [hynd_val]; exact hy
    rw [div_le_iff₀ hynd2Q] at hle
    exact_mod_cast hle
  unfold mathRoundND
  have h2Q : 0 < 2 * ynd.2 := by omega
  have hlt : (2 * ynd.1 + ynd.2) / (2 * ynd.2) < 101 := by
    rw [Nat.div_lt_iff_lt_mul h2Q]
    omega
  omega

theorem tableProgress_le_100 (r b : Nat) (h : b ≤ r) : tableProgress r b ≤ 100 := by
  unfold tableProgress
  by_cases hr : 0 < r
  · rw [if_pos hr]
    exact jsProgress_le_100 r b (by omega) h
  · rw [if_neg hr, if_neg (by omega : ¬ 0 < b)]
    omega

/-- C2 counterexample: a report entry for a remote table with 2 rows whose
mirror holds 3 rows gets progress 150, outside [0,100]; the claimed
characterization `progress = 100 ↔ mirrorCount ≥ remoteCount` fails at the
same input. -/
theorem tableProgress_claim_cex :
    ¬ ((compareTableEntry [RRow.mk "1" [], RRow.mk "2" []]
          [RRow.mk "1" [], RRow.mk "2" [], RRow.mk "3" []]).progress ≤ 100 ∧
       ((compareTableEntry [RRow.mk "1" [], RRow.mk "2" []]
          [RRow.mk "1" [], RRow.mk "2" [], RRow.mk "3" []]).progress = 100 ↔ (3 : Nat) ≥ 2)) := by
  decide

/-- C2 (amended).  For every report entry whose counts are within the range
where doubles are exact, the reported progress is exactly the unclamped
`Math.round((backupCount/remoteCount)*100)` computed in binary64
arithmetic, and it never exceeds 100 when the mirror count does not exceed
the remote count; but no exact mirror-vs-remote characterization of
`progress = 100` holds: binary64 rounding already reaches 100 with an
incomplete mirror (199 of 200 rows). -/
theorem compareTableEntry_progress_amended (remoteRows backupRows : List RRow)
    (_hr : remoteRows.length ≤ 2 ^ 53) (_hb : backupRows.length ≤ 2 ^ 53) :
    (compareTableEntry remoteRows backupRows).progress
        = tableProgress remoteRows.length backupRows.length ∧
    (backupRows.length ≤ remoteRows.length →
      (compareTableEntry remoteRows backupRows).progress ≤ 100) ∧
    (∃ r b : Nat, b < r ∧ tableProgress r b = 100) := by
  refine ⟨compareTableEntry_progress remoteRows backupRows, ?_, 200, 199, by omega, by decide⟩
  intro h
  rw [compareTableEntry_progress]
  exact tableProgress_le_100 _ _ h

/-- Witness for C2 (amended) at a concrete input: one remote row and one
mirror row; the entry's progress equals the modelled rounded ratio and is
at most 100. -/
theorem compareTableEntry_progress_amended_witness :
    ([RRow.mk "1" []] : List RRow).length ≤ 2 ^ 53 ∧
    (compareTableEntry [RRow.mk "1" []] [RRow.mk "7" []]).progress
        = tableProgress ([RRow.mk "1" []] : List RRow).length
            ([RRow.mk "7" []] : List RRow).length ∧
    (compareTableEntry [RRow.mk "1" []] [RRow.mk "7" []]).progress ≤ 100 :=
  ⟨by decide,
   (compareTableEntry_progress_amended [RRow.mk "1" []] [RRow.mk "7" []]
     (by decide) (by decide)).1,
   (compareTableEntry_progress_amended [RRow.mk "1" []] [RRow.mk "7" []]
     (by decide) (by decide)).2.1 (by decide)⟩


theorem mem_findMissingRecords_ids (remoteRows backupRows : List RRow) (x : String) :
    x ∈ (findMissingRecords remoteRows backupRows).ids ↔
      (x ∈ remoteRows.map RRow.id ∧ x ∉ backupRows.map RRow.id) := by
  simp [findMissingRecords, List.mem_filter, mem_dedupFirst]

theorem nodup_findMissingRecords_ids (remoteRows backupRows : List RRow) :
    (findMissingRecords remoteRows backupRows).ids.Nodup := by
  simp only [findMissingRecords]
  exact (nodup_dedupFirst _).filter _

theorem findMissingRecords_totalMissing_eq_card (remoteRows backupRows : List RRow) :
    (findMissingRecords remoteRows backupRows).totalMissing
      = ((remoteRows.map RRow.id).toFinset \ (backupRows.map RRow.id).toFinset).card := by
  have hnd := nodup_findMissingRecords_ids remoteRows backupRows
  have hfin : (findMissingRecords remoteRows backupRows).ids.toFinset
      = (remoteRows.map RRow.id).toFinset \ (backupRows.map RRow.id).toFinset := by
    apply Finset.ext
    intro x
    rw [List.mem_toFinset, mem_findMissingRecords_ids, Finset.mem_sdiff,
      List.mem_toFinset, List.mem_toFinset]
  have hlen : (findMissingRecords remoteRows backupRows).totalMissing
      = (findMissingRecords remoteRows backupRows).ids.length := rfl
  rw [hlen, ← List.toFinset_card_of_nodup hnd, hfin]

theorem findMissingRecords_mem_records (remoteRows backupRows : List RRow) (rec : RRow) :
    rec ∈ (findMissingRecords remoteRows backupRows).records →
      rec ∈ remoteRows ∧ rec.id ∈ (findMissingRecords remoteRows backupRows).ids := by
  intro hmem
  simp only [findMissingRecords] at hmem ⊢
  have h1 := List.take_subset _ _ hmem
  rw [List.mem_filter] at h1
  refine ⟨h1.1, ?_⟩
  have h2 := h1.2
  rw [List.contains_iff_exists_mem_beq] at h2
  obtain ⟨y, hy, hbeq⟩ := h2
  have : rec.id = y := by simpa using hbeq
  exact this ▸ List.take_subset _ _ hy

theorem compareTableEntry_missing_fields (remoteRows backupRows : List RRow)
    (h : backupRows.length < remoteRows.length) :
    (compareTableEntry remoteRows backupRows).missingRecordsCount
        = (findMissingRecords remoteRows backupRows).totalMissing ∧
    (compareTableEntry remoteRows backupRows).missingRecordsIds
        = (findMissingRecords remoteRows backupRows).ids.take 100 ∧
    (compareTableEntry remoteRows backupRows).missingRecords
        = (findMissingRecords remoteRows backupRows).records.take 100 := by
  have hcond : remoteRows.length > backupRows.length ∧ remoteRows.length > 0 :=
    ⟨h, by omega⟩
  simp only [compareTableEntry, if_pos hcond]
  exact ⟨trivial, trivial, trivial⟩

/-- C5.  For a tracked table whose mirror holds fewer rows than the
remote, the report's `missingRecordsCount` is the exact cardinality of the
set difference (remote identity values minus mirror identity values); the
reported id sample contains only genuinely missing identities; both the
id sample and the record sample are capped at 100; the cap does not bite
when at most 100 identities are missing; and every sampled full record is
a remote row whose identity is absent from the mirror. -/
theorem findMissingRecords_claim (remoteRows backupRows : List RRow)
    (h : backupRows.length < remoteRows.length) :
    (compareTableEntry remoteRows backupRows).missingRecordsCount
        = ((remoteRows.map RRow.id).toFinset \ (backupRows.map RRow.id).toFinset).card ∧
    (∀ x ∈ (compareTableEntry remoteRows backupRows).missingRecordsIds,
        x ∈ remoteRows.map RRow.id ∧ x ∉ backupRows.map RRow.id) ∧
    (compareTableEntry remoteRows backupRows).missingRecordsIds.length ≤ 100 ∧
    (compareTableEntry remoteRows backupRows).missingRecords.length ≤ 100 ∧
    ((compareTableEntry remoteRows backupRows).missingRecordsCount ≤ 100 →
      (compareTableEntry remoteRows backupRows).missingRecordsIds.length
        = (compareTableEntry remoteRows backupRows).missingRecordsCount) ∧
    (∀ rec ∈ (compareTableEntry remoteRows backupRows).missingRecords,
        rec ∈ remoteRows ∧ rec.id ∉ backupRows.map RRow.id) := by
  obtain ⟨hc, hi, hr⟩ := compareTableEntry_missing_fields remoteRows backupRows h
  refine ⟨?_, ?_, ?_, ?_, ?_, ?_⟩
  · rw [hc, findMissingRecords_totalMissing_eq_card]
  · intro x hx
    rw [hi] at hx
    exact (mem_findMissingRecords_ids remoteRows backupRows x).mp
      (List.take_subset _ _ hx)
  · rw [hi]
    exact List.length_take_le 100 _
  · rw [hr]
    exact List.length_take_le 100 _
  · intro hle
    rw [hi, hc] at *
    have hcnt : (findMissingRecords remoteRows backupRows).totalMissing
        = (findMissingRecords remoteRows backupRows).ids.length := rfl
    rw [List.length_take, hcnt]
    rw [hc, hcnt] at hle
    omega
  · intro rec hrec
    rw [hr] at hrec
    obtain ⟨hmem, hid⟩ := findMissingRecords_mem_records remoteRows backupRows rec
      (List.take_subset _ _ hrec)
    exact ⟨hmem, ((mem_findMissingRecords_ids remoteRows backupRows rec.id).mp hid).2⟩

/-- Witness for C5 at a concrete input: remote has rows with ids 1,2 and
the mirror only id 1; exactly one identity is missing. -/
theorem findMissingRecords_claim_witness :
    ([RRow.mk "1" []] : List RRow).length
        < ([RRow.mk "1" [], RRow.mk "2" []] : List RRow).length ∧
    (compareTableEntry [RRow.mk "1" [], RRow.mk "2" []] [RRow.mk "1" []]).missingRecordsCount
        = ((([RRow.mk "1" [], RRow.mk "2" []] : List RRow).map RRow.id).toFinset
            \ (([RRow.mk "1" []] : List RRow).map RRow.id).toFinset).card :=
  ⟨by decide,
   (findMissingRecords_claim [RRow.mk "1" [], RRow.mk "2" []] [RRow.mk "1" []] (by decide)).1⟩

/-! ### Job tracker: status upsert
(Backend/services/backupStatusService.js `setBackupStatus`, and the
upload status service `setUploadStatus` of src/unnamed/part_009) -/

/-- A sparse status patch: the `status` object passed to the setter.
`none` models an absent (undefined) field. -/
structure StatusPatch where
  status : Option String
  type : Option String
  backendName : Option String
  tableName : Option String
  progress : Option Nat
  message : Option String
  result : Option String
  error : Option String
  isAutomatic : Option Bool
deriving DecidableEq

/-- JS truthiness of an optional string: `undefined` and the empty string
are falsy. -/
def jsTruthy : Option String → Bool
  | none => false
  | some s => !(s == "")

/-- JS `a || b` on optional strings. -/
def jsOr (a b : Option String) : Option String :=
  if jsTruthy a then a else b

/-- A persisted backup-status job record (timestamps omitted: no claim
in this development depends on them in this service). -/
structure BackupStatusRec where
  jobId : String
  status : Option String
  type : String
  backendName : String
  progress : Nat
  message : Option String
  result : Option String
  error : Option String
  isAutomatic : Bool
deriving DecidableEq

/-- A persisted upload-status job record. -/
structure UploadStatusRec where
  jobId : String
  status : Option String
  type : String
  backendName : String
  tableName : Option String
  progress : Nat
  message : Option String
  result : Option String
  error : Option String
deriving DecidableEq

/-- `prisma.backupStatus.findUnique({ where: { jobId } })`. -/
def findRec (store : List BackupStatusRec) (jobId : String) : Option BackupStatusRec :=
  store.find? (fun r => r.jobId == jobId)

/-- The sparse update of an existing backup-status record: `status` is
written unconditionally; the optional fields only when present in the
patch; `type` and `backendName` are never touched by an update. -/
def updateBackupRec (rec : BackupStatusRec) (patch : StatusPatch) : BackupStatusRec :=
  ⟨rec.jobId,
   patch.status,
   rec.type,
   rec.backendName,
   (match patch.progress with | some p => p | none => rec.progress),
   (match patch.message with | some m => some m | none => rec.message),
   (match patch.result with | some v => some v | none => rec.result),
   (match patch.error with | some e => some e | none => rec.error),
   (match patch.isAutomatic with | some b => b | none => rec.isAutomatic)⟩

/-- `setBackupStatus(jobId, status)`: upsert keyed by `jobId`.  Creating a
record requires resolvable truthy `type` and `backendName`; when they are
missing the inner code throws, but the surrounding catch only logs the
error and returns, so the caller never observes a failure.  Returns the
resulting store and the message logged by that catch (if any). -/
def setBackupStatus (store : List BackupStatusRec) (jobId : String) (patch : StatusPatch) :
    List BackupStatusRec × Option String :=
  match findRec store jobId with
  | some _ =>
      (store.map (fun r => if r.jobId == jobId then updateBackupRec r patch else r), none)
  | none =>
      let ty := jsOr patch.type none
      let bn := jsOr patch.backendName none
      if !(jsTruthy ty) || !(jsTruthy bn) then
        (store, some "Missing required fields for new record")
      else
        (store ++ [⟨jobId, patch.status, ty.getD "", bn.getD "",
                    patch.progress.getD 0, jsOr patch.message none,
                    jsOr patch.result none, jsOr patch.error none,
                    patch.isAutomatic.getD false⟩], none)

/-- The sparse update of an existing upload-status record. -/
def updateUploadRec (rec : UploadStatusRec) (patch : StatusPatch) : UploadStatusRec :=
  ⟨rec.jobId,
   patch.status,
   rec.type,
   rec.backendName,
   rec.tableName,
   (match patch.progress with | some p => p | none => rec.progress),
   (match patch.message with | some m => some m | none => rec.message),
   (match patch.result with | some v => some v | none => rec.result),
   (match patch.error with | some e => some e | none => rec.error)⟩

/-- `setUploadStatus(jobId, status)`: same upsert, but its catch rethrows,
so a missing `type`/`backendName` on creation is an error the caller
observes; the throw happens before any create, leaving the store as it
was. -/
def setUploadStatus (store : List UploadStatusRec) (jobId : String) (patch : StatusPatch) :
    Except String (List UploadStatusRec) :=
  match store.find? (fun r => r.jobId == jobId) with
  | some _ =>
      Except.ok (store.map (fun r => if r.jobId == jobId then updateUploadRec r patch else r))
  | none =>
      let ty := jsOr patch.type none
      let bn := jsOr patch.backendName none
      let tn := jsOr patch.tableName none
      if !(jsTruthy ty) || !(jsTruthy bn) then
        Except.error "Missing required fields"
      else
        Except.ok (store ++ [⟨jobId, patch.status, ty.getD "", bn.getD "", tn,
          patch.progress.getD 0, jsOr patch.message none,
          jsOr patch.result none, jsOr patch.error none⟩])

/-- The patch of the claim's scenario: only `{status: 'processing'}`. -/
def processingPatch : StatusPatch :=
  ⟨some "processing", none, none, none, none, none, none, none, none⟩

/-- C3 counterexample: on the backup tracker, a `{status:'processing'}`
patch for a nonexistent job does NOT fail: the call returns normally
(the error is caught and only logged), leaving the store unchanged. -/
theorem setBackupStatus_swallow_cex :
    setBackupStatus [] "job1" processingPatch
      = ([], some "Missing required fields for new record") := by
  decide

/-- C3 (amended).  A patch for a nonexistent job that cannot resolve a
truthy `kind`/`backendName` never creates a record: `setUploadStatus`
fails with an error propagated to the caller (the store untouched, since
the throw precedes the create), while `setBackupStatus` logs the error
and returns normally with the store unchanged. -/
theorem setStatus_missing_required_fields
    (bstore : List BackupStatusRec) (ustore : List UploadStatusRec)
    (jobId : String) (patch : StatusPatch)
    (hb : findRec bstore jobId = none)
    (hu : ustore.find? (fun r => r.jobId == jobId) = none)
    (hmiss : jsTruthy (jsOr patch.type none) = false
      ∨ jsTruthy (jsOr patch.backendName none) = false) :
    (setBackupStatus bstore jobId patch).1 = bstore ∧
    (setBackupStatus bstore jobId patch).2.isSome = true ∧
    ∃ msg, setUploadStatus ustore jobId patch = Except.error msg := by
  have hcond : (!(jsTruthy (jsOr patch.type none)) || !(jsTruthy (jsOr patch.backendName none))) = true := by
    rcases hmiss with h | h <;> simp [h]
  unfold setBackupStatus setUploadStatus
  rw [hb, hu]
  simp only [hcond, if_pos]
  exact ⟨trivial, rfl, "Missing required fields", rfl⟩

/-- Witness for C3 (amended) at the concrete scenario of the claim:
empty stores and a `{status:'processing'}` patch. -/
theorem setStatus_missing_required_fields_witness :
    (findRec [] "job1" = none ∧ ([] : List UploadStatusRec).find? (fun r => r.jobId == "job1") = none
      ∧ (jsTruthy (jsOr processingPatch.type none) = false
          ∨ jsTruthy (jsOr processingPatch.backendName none) = false)) ∧
    ((setBackupStatus [] "job1" processingPatch).1 = [] ∧
     (setBackupStatus [] "job1" processingPatch).2.isSome = true ∧
     ∃ msg, setUploadStatus [] "job1" processingPatch = Except.error msg) :=
  ⟨⟨by decide, by decide, by decide⟩,
   setStatus_missing_required_fields [] [] "job1" processingPatch
     (by decide) (by decide) (by decide)⟩

/-! ### Job tracker: retention sweep
(`cleanupOldStatuses` in backupStatusService.js and
`cleanupOldUploadStatuses` in the upload status service) -/

/-- A job record as the sweep sees it: status and creation time
(epoch milliseconds). -/
structure JobStatusRow where
  jobId : String
  status : String
  backendName : String
  createdAt : Int
deriving DecidableEq

/-- The sweep cutoff: now minus `parseInt(env || '7')` days
(`cutoffDate.setDate(getDate() - cleanupDays)`, idealized to
`days * 86400000` ms). -/
def cleanupCutoff (now : Int) (envDays : Option Nat) : Int :=
  now - (envDays.getD 7 : Nat) * 86400000

/-- The `deleteMany` predicate: `createdAt < cutoff` AND
`status in ['completed', 'failed']`. -/
def isExpiredTerminal (cutoff : Int) (r : JobStatusRow) : Bool :=
  decide (r.createdAt < cutoff) && (r.status == "completed" || r.status == "failed")

/-- `cleanupOldStatuses()`: delete every record matching the predicate;
returns the surviving store and the deleted count. -/
def cleanupOldStatuses (envDays : Option Nat) (now : Int) (store : List JobStatusRow) :
    List JobStatusRow × Nat :=
  let cutoff := cleanupCutoff now envDays
  (store.filter (fun r => !(isExpiredTerminal cutoff r)),
   (store.filter (isExpiredTerminal cutoff)).length)

/-- `cleanupOldUploadStatuses()`: identical sweep over the upload-status
table (same default of 7 days from its own environment variable). -/
def cleanupOldUploadStatuses (envDays : Option Nat) (now : Int) (store : List JobStatusRow) :
    List JobStatusRow × Nat :=
  let cutoff := cleanupCutoff now envDays
  (store.filter (fun r => !(isExpiredTerminal cutoff r)),
   (store.filter (isExpiredTerminal cutoff)).length)

/-- C9.  The sweep deletes exactly the records that are in a terminal
state (`completed` or `failed`) and older than the retention cutoff; a
`processing` record survives every sweep regardless of its age.  Stated
for both the backup-status and the upload-status sweep. -/
theorem cleanup_sweep_safety (envDays : Option Nat) (now : Int)
    (store : List JobStatusRow) (r : JobStatusRow) (hr : r ∈ store) :
    (r ∉ (cleanupOldStatuses envDays now store).1 ↔
      (r.createdAt < cleanupCutoff now envDays
        ∧ (r.status = "completed" ∨ r.status = "failed"))) ∧
    (r.status = "processing" → r ∈ (cleanupOldStatuses envDays now store).1) ∧
    (r ∉ (cleanupOldUploadStatuses envDays now store).1 ↔
      (r.createdAt < cleanupCutoff now envDays
        ∧ (r.status = "completed" ∨ r.status = "failed"))) ∧
    (r.status = "processing" → r ∈ (cleanupOldUploadStatuses envDays now store).1) := by
  have hmem : ∀ res : List JobStatusRow,
      res = store.filter (fun x => !(isExpiredTerminal (cleanupCutoff now envDays) x)) →
      (r ∉ res ↔ (r.createdAt < cleanupCutoff now envDays
        ∧ (r.status = "completed" ∨ r.status = "failed"))) := by
    intro res hres
    subst hres
    rw [List.mem_filter]
    simp [hr, isExpiredTerminal]
    tauto
  have hproc : ∀ res : List JobStatusRow,
      res = store.filter (fun x => !(isExpiredTerminal (cleanupCutoff now envDays) x)) →
      r.status = "processing" → r ∈ res := by
    intro res hres hp
    subst hres
    rw [List.mem_filter]
    simp [hr, isExpiredTerminal, hp]
  exact ⟨hmem _ rfl, hproc _ rfl, hmem _ rfl, hproc _ rfl⟩

/-- Witness for C9 at a concrete input: one completed record created at
time 0, swept at a time just past the default 7-day window. -/
theorem cleanup_sweep_safety_witness :
    (JobStatusRow.mk "j" "completed" "A" 0 ∈ [JobStatusRow.mk "j" "completed" "A" 0]) ∧
    (JobStatusRow.mk "j" "completed" "A" 0
        ∉ (cleanupOldStatuses none 604800001 [JobStatusRow.mk "j" "completed" "A" 0]).1 ↔
      ((JobStatusRow.mk "j" "completed" "A" 0).createdAt < cleanupCutoff 604800001 none
        ∧ ((JobStatusRow.mk "j" "completed" "A" 0).status = "completed"
            ∨ (JobStatusRow.mk "j" "completed" "A" 0).status = "failed"))) :=
  ⟨by decide,
   (cleanup_sweep_safety none 604800001 [JobStatusRow.mk "j" "completed" "A" 0]
      (JobStatusRow.mk "j" "completed" "A" 0) (by decide)).1⟩

/-! ### Upload reconciler (Backend/services/uploadService.js
`uploadTableRecords`) -/

/-- Strip the mirror bookkeeping columns:
`delete cleanRecord.backup_created_at; delete cleanRecord.backup_updated_at`. -/
def cleanRecord (r : Row) : Row :=
  r.filter (fun p => !(p.1 == "backup_created_at" || p.1 == "backup_updated_at"))

/-- `Object.keys(cleanRecord).filter(key => cleanRecord[key] !== undefined)`:
only defined properties become insert columns. -/
def definedColumns (r : Row) : Row :=
  r.filter (fun p => !(p.2 == JsVal.undef))

/-- Effect of `ON CONFLICT ("pk") DO UPDATE SET "col" = EXCLUDED."col"`
on the conflicting stored row: every insert column is overwritten with the
incoming value; stored columns absent from the insert keep their values. -/
def mergeRow (old new : Row) : Row :=
  old.map (fun p => (p.1, (rfind? new p.1).getD p.2))

/-- The `INSERT ... ON CONFLICT DO UPDATE ... RETURNING "pk"` write:
overwrite the stored row whose primary-key value collides, else append the
new row; returns the new table and the RETURNING value. -/
def writeRow (primaryKey : String) (tbl : List Row) (rec : Row) : List Row × JsVal :=
  let keyVal := rlookup rec primaryKey
  if tbl.any (fun t => rlookup t primaryKey == keyVal) then
    (tbl.map (fun t => if rlookup t primaryKey == keyVal then mergeRow t rec else t), keyVal)
  else
    (tbl ++ [rec], keyVal)

/-- One iteration of the upload loop: clean the record, write it, then
re-query `SELECT COUNT(*) WHERE "pk" = $returned` and classify the row as
matched when the count is positive, else as uploaded. -/
def uploadStep (primaryKey : String) (acc : List Row × Nat × Nat) (record : Row) :
    List Row × Nat × Nat :=
  let clean := definedColumns (cleanRecord record)
  let w := writeRow primaryKey acc.1 clean
  let cnt := (w.1.filter (fun t => rlookup t primaryKey == w.2)).length
  if 0 < cnt then (w.1, acc.2.1, acc.2.2 + 1) else (w.1, acc.2.1 + 1, acc.2.2)

/-- `uploadTableRecords(remoteDbUrl, tableName, records)` with every write
succeeding: returns the remote table state and
`(uploadedRecords, matchedRecords)`.  The batching in groups of 100 does
not change the sequential per-row processing and is omitted. -/
def uploadTableRecords (primaryKey : String) (records : List Row) (remote : List Row) :
    List Row × Nat × Nat :=
  if records.isEmpty then (remote, 0, 0)
  else records.foldl (uploadStep primaryKey) (remote, 0, 0)

theorem rfind?_cons_pos (p : String × JsVal) (r : Row) (k : String) (h : p.1 = k) :
    rfind? (p :: r) k = some p.2 := by
  unfold rfind?
  rw [List.find?_cons_of_pos _ (by simpa using h)]
  rfl

theorem rfind?_cons_neg (p : String × JsVal) (r : Row) (k : String) (h : ¬ p.1 = k) :
    rfind? (p :: r) k = rfind? r k := by
  unfold rfind?
  rw [List.find?_cons_of_neg _ (by simpa using h)]

theorem rfind?_mergeRow (new : Row) (k : String) :
    ∀ old : Row, rfind? (mergeRow old new) k
      = (rfind? old k).map (fun v => (rfind? new k).getD v) := by
  intro old
  induction old with
  | nil => rfl
  | cons p ps ih =>
    have hstep : mergeRow (p :: ps) new
        = (p.1, (rfind? new p.1).getD p.2) :: mergeRow ps new := rfl
    by_cases hk : p.1 = k
    · rw [hstep]
      rw [rfind?_cons_pos (p.1, (rfind? new p.1).getD p.2) (mergeRow ps new) k hk]
      rw [rfind?_cons_pos p ps k hk]
      simp [hk]
    · rw [hstep]
      rw [rfind?_cons_neg (p.1, (rfind? new p.1).getD p.2) (mergeRow ps new) k hk]
      rw [rfind?_cons_neg p ps k hk]
      exact ih

/-- A stored row whose primary-key value matched the incoming record keeps
that value through the conflict update. -/
theorem rlookup_mergeRow_key (t rec : Row) (k : String)
    (h : rlookup t k = rlookup rec k) :
    rlookup (mergeRow t rec) k = rlookup rec k := by
  unfold rlookup at *
  rw [rfind?_mergeRow]
  cases ht : rfind? t k with
  | none =>
    rw [ht] at h
    simpa using h
  | some v =>
    rw [ht] at h
    cases hr : rfind? rec k with
    | none =>
      rw [hr] at h
      simpa using h
    | some w => simp

/-- After the upsert write, the re-query for the returned key always finds
at least one row. -/
theorem writeRow_found (primaryKey : String) (tbl : List Row) (rec : Row) :
    0 < ((writeRow primaryKey tbl rec).1.filter
      (fun t => rlookup t primaryKey == (writeRow primaryKey tbl rec).2)).length := by
  unfold writeRow
  cases hc : tbl.any (fun t => rlookup t primaryKey == rlookup rec primaryKey) with
  | true =>
    rw [if_pos hc]
    simp only []
    obtain ⟨t, ht, hbeq⟩ := List.any_eq_true.mp hc
    have heq : rlookup t primaryKey = rlookup rec primaryKey := by simpa using hbeq
    have hmmem : mergeRow t rec
        ∈ tbl.map (fun x => if rlookup x primaryKey == rlookup rec primaryKey
            then mergeRow x rec else x) :=
      List.mem_map.mpr ⟨t, ht, by simp [hbeq]⟩
    have hpass : (rlookup (mergeRow t rec) primaryKey == rlookup rec primaryKey) = true := by
      rw [rlookup_mergeRow_key t rec primaryKey heq]
      simp
    exact List.length_pos_of_mem (List.mem_filter.mpr ⟨hmmem, hpass⟩)
  | false =>
    rw [if_neg (by simp [hc])]
    simp only []
    have hmem : rec ∈ tbl ++ [rec] := by simp
    have hpass : (rlookup rec primaryKey == rlookup rec primaryKey) = true := by simp
    exact List.length_pos_of_mem (List.mem_filter.mpr ⟨hmem, hpass⟩)

theorem uploadStep_matches (primaryKey : String) (acc : List Row × Nat × Nat) (record : Row) :
    uploadStep primaryKey acc record
      = ((writeRow primaryKey acc.1 (definedColumns (cleanRecord record))).1,
         acc.2.1, acc.2.2 + 1) := by
  unfold uploadStep
  rw [if_pos (writeRow_found primaryKey acc.1 (definedColumns (cleanRecord record)))]

/-- Counting invariant of the upload loop: `uploaded` never moves and
`matched` advances by one per processed record. -/
theorem uploadFold_counts (primaryKey : String) (records : List Row) :
    ∀ (tbl : List Row) (u m : Nat),
      (records.foldl (uploadStep primaryKey) (tbl, u, m)).2.1 = u ∧
      (records.foldl (uploadStep primaryKey) (tbl, u, m)).2.2 = m + records.length := by
  induction records with
  | nil => intro tbl u m; simp
  | cons r rest ih =>
    intro tbl u m
    rw [List.foldl_cons, uploadStep_matches]
    have hih := ih (writeRow primaryKey tbl (definedColumns (cleanRecord r))).1 u (m + 1)
    refine ⟨hih.1, ?_⟩
    rw [hih.2]
    simp [List.length_cons]
    omega

/-- Shared helper: on every run with all writes succeeding, the
classification re-query always finds the just-written key, so each
record counts as matched and none as uploaded. -/
theorem uploadTableRecords_counts (primaryKey : String) (records : List Row)
    (remote : List Row) :
    (uploadTableRecords primaryKey records remote).2.1 = 0 ∧
    (uploadTableRecords primaryKey records remote).2.2 = records.length := by
  unfold uploadTableRecords
  cases he : records.isEmpty with
  | true =>
    have hnil : records = [] := List.isEmpty_iff.mp he
    subst hnil
    simp
  | false =>
    rw [if_neg (by simp [he])]
    have hf := uploadFold_counts primaryKey records remote 0 0
    exact ⟨hf.1, by rw [hf.2]; omega⟩

/-- C8.  The matched-vs-uploaded classification re-queries the primary
key after the `INSERT ... ON CONFLICT` write has already stored the row,
so the key is always found: for every input list and any remote state
(including rows that are genuinely new there), every successfully written
row increments `matchedRecords` and `uploadedRecords` stays 0. -/
theorem uploadTableRecords_always_matched (primaryKey : String) (records : List Row)
    (remote : List Row) :
    (uploadTableRecords primaryKey records remote).2.1 = 0 ∧
    (uploadTableRecords primaryKey records remote).2.2 = records.length :=
  uploadTableRecords_counts primaryKey records remote

/-- C7.  Re-running the upload with identical mirror data and no per-row
errors yields `uploadedRecords = 0` and `matchedRecords = N` on the
second run. -/
theorem uploadTableRecords_rerun (primaryKey : String) (records : List Row)
    (remote : List Row) (_h : records ≠ []) :
    (uploadTableRecords primaryKey records
        (uploadTableRecords primaryKey records remote).1).2.1 = 0 ∧
    (uploadTableRecords primaryKey records
        (uploadTableRecords primaryKey records remote).1).2.2 = records.length :=
  uploadTableRecords_counts primaryKey records
    (uploadTableRecords primaryKey records remote).1

/-- Witness for C7 at a concrete input: one mirror row uploaded twice. -/
theorem uploadTableRecords_rerun_witness :
    ([[("id", JsVal.prim "1"), ("v", JsVal.prim "a")]] : List Row) ≠ [] ∧
    (uploadTableRecords "id" [[("id", JsVal.prim "1"), ("v", JsVal.prim "a")]]
        (uploadTableRecords "id" [[("id", JsVal.prim "1"), ("v", JsVal.prim "a")]] []).1).2.1
      = 0 ∧
    (uploadTableRecords "id" [[("id", JsVal.prim "1"), ("v", JsVal.prim "a")]]
        (uploadTableRecords "id" [[("id", JsVal.prim "1"), ("v", JsVal.prim "a")]] []).1).2.2
      = ([[("id", JsVal.prim "1"), ("v", JsVal.prim "a")]] : List Row).length :=
  ⟨by decide,
   (uploadTableRecords_rerun "id" [[("id", JsVal.prim "1"), ("v", JsVal.prim "a")]] []
      (by decide)).1,
   (uploadTableRecords_rerun "id" [[("id", JsVal.prim "1"), ("v", JsVal.prim "a")]] []
      (by decide)).2⟩

/-! ### File comparison (`compareBackupFiles` in
Backend/controllers/comparisonController.js) -/

/-- A file in a folder tree node (as produced by the bucket or local
listing): display name, full key, byte size, last-modified stamp. -/
structure FileEntry where
  name : String
  key : String
  size : Nat
  lastModified : Option String
deriving DecidableEq

/-- A folder tree: the node's own files plus named child folders
(object keys iterate in insertion order). -/
inductive FileTree where
  | node (files : List FileEntry) (folders : List (String × FileTree))

/-- A flattened file descriptor as stored in the path→descriptor map. -/
structure FlatFile where
  key : String
  name : String
  size : Nat
  lastModified : Option String
deriving DecidableEq

/-- `currentPath ? currentPath + "/" + seg : seg`. -/
def joinPath (currentPath seg : String) : String :=
  if currentPath == "" then seg else currentPath ++ "/" ++ seg

/-- The descriptor pushed by `traverse` for one file:
`key = currentPath/(file.name || file.key)`, `size = file.size || 0`. -/
def mkFlat (currentPath : String) (f : FileEntry) : FlatFile :=
  let nm := if f.name == "" then f.key else f.name
  ⟨joinPath currentPath nm, nm, f.size, f.lastModified⟩

mutual
/-- Depth-first traversal of `flattenFiles`: the node's files, then its
subfolders. -/
def treeFiles : FileTree → String → List FlatFile
  | FileTree.node files folders, currentPath =>
      files.map (mkFlat currentPath) ++ treeFolders folders currentPath

def treeFolders : List (String × FileTree) → String → List FlatFile
  | [], _ => []
  | (folderName, child) :: rest, currentPath =>
      treeFiles child (joinPath currentPath folderName) ++ treeFolders rest currentPath
end

/-- `Map.set`: replace the value in place if the key exists, else append. -/
def mapSet (m : List (String × FlatFile)) (k : String) (v : FlatFile) :
    List (String × FlatFile) :=
  if m.any (fun p => p.1 == k) then
    m.map (fun p => if p.1 == k then (k, v) else p)
  else m ++ [(k, v)]

/-- `flattenFiles(structure)`: traverse the tree and build the
path→descriptor map in traversal order. -/
def flattenFiles (t : FileTree) : List (String × FlatFile) :=
  (treeFiles t "").foldl (fun m f => mapSet m f.key f) []

/-- `Map.get`. -/
def lookupMap (m : List (String × FlatFile)) (k : String) : Option FlatFile :=
  (m.find? (fun p => p.1 == k)).map (·.2)

/-- The four classification lists of the comparison result. -/
structure FilesComparison where
  missingInLocal : List FlatFile
  missingInBucket : List FlatFile
  matchingFiles : List (String × Nat)
  differentFiles : List (String × Nat × Nat)

/-- `compareBackupFiles(bucketUrl, attributes, backendName)` after both
listings succeed: flatten both trees, then classify every bucket-map entry
as missing-in-local / matching (equal size) / different (differing size),
and every local-map entry absent from the bucket map as
missing-in-bucket.  The source's two `for...of` loops push into the four
lists in map-iteration order; they are rendered here as `filterMap` over
the same entries in the same order. -/
def compareBackupFiles (bucketTree localTree : FileTree) : FilesComparison :=
  let bucketFileMap := flattenFiles bucketTree
  let localFileMap := flattenFiles localTree
  ⟨bucketFileMap.filterMap (fun p =>
      match lookupMap localFileMap p.1 with
      | none => some p.2
      | some _ => none),
   localFileMap.filterMap (fun p =>
      match lookupMap bucketFileMap p.1 with
      | none => some p.2
      | some _ => none),
   bucketFileMap.filterMap (fun p =>
      match lookupMap localFileMap p.1 with
      | some lf => if p.2.size == lf.size then some (p.1, p.2.size) else none
      | none => none),
   bucketFileMap.filterMap (fun p =>
      match lookupMap localFileMap p.1 with
      | some lf => if p.2.size == lf.size then none else some (p.1, p.2.size, lf.size)
      | none => none)⟩

theorem mapSet_key_inv (m : List (String × FlatFile)) (k : String) (v : FlatFile)
    (hm : ∀ p ∈ m, p.2.key = p.1) (hv : v.key = k) :
    ∀ p ∈ mapSet m k v, p.2.key = p.1 := by
  intro p hp
  unfold mapSet at hp
  by_cases hany : m.any (fun q => q.1 == k)
  · rw [if_pos hany] at hp
    obtain ⟨q, hq, heq⟩ := List.mem_map.mp hp
    by_cases hqk : q.1 == k
    · rw [if_pos hqk] at heq
      rw [← heq]
      exact hv
    · rw [if_neg hqk] at heq
      rw [← heq]
      exact hm q hq
  · rw [if_neg hany] at hp
    rcases List.mem_append.mp hp with h | h
    · exact hm p h
    · rw [List.mem_singleton.mp h]
      exact hv

theorem mapSet_keys_nodup (m : List (String × FlatFile)) (k : String) (v : FlatFile)
    (hm : (m.map Prod.fst).Nodup) :
    ((mapSet m k v).map Prod.fst).Nodup := by
  unfold mapSet
  by_cases hany : m.any (fun q => q.1 == k)
  · rw [if_pos hany]
    have hsame : (m.map (fun p => if p.1 == k then (k, v) else p)).map Prod.fst
        = m.map Prod.fst := by
      rw [List.map_map]
      apply List.map_congr_left
      intro p _
      by_cases hpk : p.1 == k
      · simp only [Function.comp, if_pos hpk]
        exact (eq_of_beq hpk).symm
      · simp only [Function.comp, if_neg hpk]
    rw [hsame]
    exact hm
  · rw [if_neg hany]
    have hk : k ∉ m.map Prod.fst := by
      intro hin
      obtain ⟨p, hp, hpk⟩ := List.mem_map.mp hin
      exact hany (List.any_eq_true.mpr ⟨p, hp, by simp [hpk]⟩)
    simp [List.nodup_append, hm, hk]

theorem flattenAux_key_inv (l : List FlatFile) :
    ∀ m : List (String × FlatFile), (∀ p ∈ m, p.2.key = p.1) →
      ∀ p ∈ l.foldl (fun m f => mapSet m f.key f) m, p.2.key = p.1 := by
  induction l with
  | nil => intro m hm; exact hm
  | cons f fs ih =>
    intro m hm
    rw [List.foldl_cons]
    exact ih _ (mapSet_key_inv m f.key f hm rfl)

theorem flattenAux_keys_nodup (l : List FlatFile) :
    ∀ m : List (String × FlatFile), (m.map Prod.fst).Nodup →
      ((l.foldl (fun m f => mapSet m f.key f) m).map Prod.fst).Nodup := by
  induction l with
  | nil => intro m hm; exact hm
  | cons f fs ih =>
    intro m hm
    rw [List.foldl_cons]
    exact ih _ (mapSet_keys_nodup m f.key f hm)

theorem flattenFiles_key_inv (t : FileTree) :
    ∀ p ∈ flattenFiles t, p.2.key = p.1 :=
  flattenAux_key_inv (treeFiles t "") [] (by intro p hp; cases hp)

theorem flattenFiles_keys_nodup (t : FileTree) :
    ((flattenFiles t).map Prod.fst).Nodup :=
  flattenAux_keys_nodup (treeFiles t "") [] List.nodup_nil

/-- Key presence in an association map coincides with a successful
lookup. -/
theorem lookupMap_isSome_iff (m : List (String × FlatFile)) (k : String) :
    (lookupMap m k).isSome = true ↔ k ∈ m.map Prod.fst := by
  unfold lookupMap
  have hiff : (Option.map (fun x => (x : String × FlatFile).2)
        (List.find? (fun p => p.1 == k) m)).isSome
      = (List.find? (fun p => p.1 == k) m).isSome := by
    cases List.find? (fun p => p.1 == k) m <;> rfl
  rw [hiff, List.find?_isSome]
  constructor
  · rintro ⟨p, hp, hpk⟩
    exact List.mem_map.mpr ⟨p, hp, eq_of_beq hpk⟩
  · intro hk
    obtain ⟨p, hp, hpk⟩ := List.mem_map.mp hk
    exact ⟨p, hp, by simp [hpk]⟩

/-- In a map with distinct keys, lookup returns exactly the stored
binding. -/
theorem lookupMap_eq_some_iff (m : List (String × FlatFile))
    (hnd : (m.map Prod.fst).Nodup) (k : String) (v : FlatFile) :
    lookupMap m k = some v ↔ (k, v) ∈ m := by
  induction m with
  | nil => simp [lookupMap]
  | cons a m' ih =>
    rw [List.map_cons, List.nodup_cons] at hnd
    by_cases hak : a.1 = k
    · unfold lookupMap
      rw [List.find?_cons_of_pos _ (by simp [hak])]
      show some a.2 = some v ↔ (k, v) ∈ a :: m'
      constructor
      · intro hsome
        have hv : v = a.2 := by
          cases hsome
          rfl
        have hkv : (k, v) = a := by rw [hv, ← hak]
        rw [hkv]
        exact List.mem_cons_self a m'
      · intro hmem
        rcases List.mem_cons.mp hmem with h | h
        · rw [← h]
        · exfalso
          apply hnd.1
          rw [hak]
          exact List.mem_map.mpr ⟨(k, v), h, rfl⟩
    · unfold lookupMap
      rw [List.find?_cons_of_neg _ (by simp [hak])]
      rw [show (List.find? (fun p => p.1 == k) m').map (·.2) = lookupMap m' k from rfl]
      rw [ih hnd.2]
      constructor
      · intro h
        exact List.mem_cons_of_mem a h
      · intro h
        rcases List.mem_cons.mp h with h' | h'
        · exfalso
          apply hak
          rw [← h']
        · exact h'

theorem cbf_missingInLocal (bt lt : FileTree) :
    (compareBackupFiles bt lt).missingInLocal
      = (flattenFiles bt).filterMap (fun p =>
          match lookupMap (flattenFiles lt) p.1 with
          | none => some p.2
          | some _ => none) := rfl

theorem cbf_missingInBucket (bt lt : FileTree) :
    (compareBackupFiles bt lt).missingInBucket
      = (flattenFiles lt).filterMap (fun p =>
          match lookupMap (flattenFiles bt) p.1 with
          | none => some p.2
          | some _ => none) := rfl

theorem cbf_matchingFiles (bt lt : FileTree) :
    (compareBackupFiles bt lt).matchingFiles
      = (flattenFiles bt).filterMap (fun p =>
          match lookupMap (flattenFiles lt) p.1 with
          | some lf => if p.2.size == lf.size then some (p.1, p.2.size) else none
          | none => none) := rfl

theorem cbf_differentFiles (bt lt : FileTree) :
    (compareBackupFiles bt lt).differentFiles
      = (flattenFiles bt).filterMap (fun p =>
          match lookupMap (flattenFiles lt) p.1 with
          | some lf => if p.2.size == lf.size then none else some (p.1, p.2.size, lf.size)
          | none => none) := rfl

/-- Keys reported missing on the `B` side: present in `A`, absent in `B`. -/
theorem mem_missingKeys (A B : List (String × FlatFile))
    (hA : ∀ p ∈ A, p.2.key = p.1) (k : String) :
    k ∈ (A.filterMap (fun p =>
        match lookupMap B p.1 with
        | none => some p.2
        | some _ => none)).map FlatFile.key
      ↔ ((lookupMap A k).isSome = true ∧ lookupMap B k = none) := by
  constructor
  · intro hk
    obtain ⟨x, hx, hxk⟩ := List.mem_map.mp hk
    obtain ⟨p, hp, hfp⟩ := List.mem_filterMap.mp hx
    cases hl : lookupMap B p.1 with
    | some lf => rw [hl] at hfp; cases hfp
    | none =>
      rw [hl] at hfp
      have hx2 : x = p.2 := by cases hfp; rfl
      have hkp : k = p.1 := by rw [← hxk, hx2, hA p hp]
      subst hkp
      constructor
      · rw [lookupMap_isSome_iff]
        exact List.mem_map.mpr ⟨p, hp, rfl⟩
      · exact hl
  · rintro ⟨hb, hl⟩
    rw [lookupMap_isSome_iff] at hb
    obtain ⟨p, hp, hpk⟩ := List.mem_map.mp hb
    refine List.mem_map.mpr ⟨p.2, ?_, ?_⟩
    · refine List.mem_filterMap.mpr ⟨p, hp, ?_⟩
      rw [show p.1 = k from hpk, hl]
    · rw [hA p hp, hpk]

/-- Keys reported as matching: present in both with equal sizes. -/
theorem mem_matchingKeys (A B : List (String × FlatFile))
    (hndA : (A.map Prod.fst).Nodup) (k : String) :
    k ∈ (A.filterMap (fun p =>
        match lookupMap B p.1 with
        | some lf => if p.2.size == lf.size then some (p.1, p.2.size) else none
        | none => none)).map Prod.fst
      ↔ ∃ bf lf, lookupMap A k = some bf ∧ lookupMap B k = some lf
          ∧ bf.size = lf.size := by
  constructor
  · intro hk
    obtain ⟨x, hx, hxk⟩ := List.mem_map.mp hk
    obtain ⟨p, hp, hfp⟩ := List.mem_filterMap.mp hx
    cases hl : lookupMap B p.1 with
    | none => rw [hl] at hfp; cases hfp
    | some lf =>
      simp only [hl] at hfp
      by_cases hsz : p.2.size == lf.size
      · rw [if_pos hsz] at hfp
        have hx2 : x = (p.1, p.2.size) := by cases hfp; rfl
        have hkp : k = p.1 := by rw [← hxk, hx2]
        subst hkp
        refine ⟨p.2, lf, ?_, hl, eq_of_beq hsz⟩
        rw [lookupMap_eq_some_iff A hndA]
        exact hp
      · rw [if_neg hsz] at hfp; cases hfp
  · rintro ⟨bf, lf, hA', hB', hsz⟩
    have hmem : (k, bf) ∈ A := (lookupMap_eq_some_iff A hndA k bf).mp hA'
    refine List.mem_map.mpr ⟨(k, bf.size), ?_, rfl⟩
    refine List.mem_filterMap.mpr ⟨(k, bf), hmem, ?_⟩
    show (match lookupMap B k with
      | some lf => if bf.size == lf.size then some (k, bf.size) else none
      | none => none) = some (k, bf.size)
    simp only [hB']
    rw [if_pos (by simp [hsz])]

/-- Keys reported as different: present in both with differing sizes. -/
theorem mem_differentKeys (A B : List (String × FlatFile))
    (hndA : (A.map Prod.fst).Nodup) (k : String) :
    k ∈ (A.filterMap (fun p =>
        match lookupMap B p.1 with
        | some lf => if p.2.size == lf.size then none else some (p.1, p.2.size, lf.size)
        | none => none)).map Prod.fst
      ↔ ∃ bf lf, lookupMap A k = some bf ∧ lookupMap B k = some lf
          ∧ bf.size ≠ lf.size := by
  constructor
  · intro hk
    obtain ⟨x, hx, hxk⟩ := List.mem_map.mp hk
    obtain ⟨p, hp, hfp⟩ := List.mem_filterMap.mp hx
    cases hl : lookupMap B p.1 with
    | none => rw [hl] at hfp; cases hfp
    | some lf =>
      simp only [hl] at hfp
      by_cases hsz : p.2.size == lf.size
      · rw [if_pos hsz] at hfp; cases hfp
      · rw [if_neg hsz] at hfp
        have hx2 : x = (p.1, p.2.size, lf.size) := by cases hfp; rfl
        have hkp : k = p.1 := by rw [← hxk, hx2]
        subst hkp
        refine ⟨p.2, lf, ?_, hl, by simpa using hsz⟩
        rw [lookupMap_eq_some_iff A hndA]
        exact hp
  · rintro ⟨bf, lf, hA', hB', hsz⟩
    have hmem : (k, bf) ∈ A := (lookupMap_eq_some_iff A hndA k bf).mp hA'
    refine List.mem_map.mpr ⟨(k, bf.size, lf.size), ?_, rfl⟩
    refine List.mem_filterMap.mpr ⟨(k, bf), hmem, ?_⟩
    show (match lookupMap B k with
      | some lf => if bf.size == lf.size then none else some (k, bf.size, lf.size)
      | none => none) = some (k, bf.size, lf.size)
    simp only [hB']
    rw [if_neg (by simpa using hsz)]

/-- C6.  File-comparison partition: classification of each key is exactly
by presence in the two flattened maps and size equality, and every key of
the union of both key sets lands in exactly one of the four lists —
the four lists cover the union and are pairwise disjoint. -/
theorem compareBackupFiles_partition (bucketTree localTree : FileTree) (k : String) :
    ((k ∈ (compareBackupFiles bucketTree localTree).missingInLocal.map FlatFile.key ↔
        ((lookupMap (flattenFiles bucketTree) k).isSome = true
          ∧ lookupMap (flattenFiles localTree) k = none)) ∧
     (k ∈ (compareBackupFiles bucketTree localTree).missingInBucket.map FlatFile.key ↔
        ((lookupMap (flattenFiles localTree) k).isSome = true
          ∧ lookupMap (flattenFiles bucketTree) k = none)) ∧
     (k ∈ (compareBackupFiles bucketTree localTree).matchingFiles.map Prod.fst ↔
        ∃ bf lf, lookupMap (flattenFiles bucketTree) k = some bf
          ∧ lookupMap (flattenFiles localTree) k = some lf ∧ bf.size = lf.size) ∧
     (k ∈ (compareBackupFiles bucketTree localTree).differentFiles.map Prod.fst ↔
        ∃ bf lf, lookupMap (flattenFiles bucketTree) k = some bf
          ∧ lookupMap (flattenFiles localTree) k = some lf ∧ bf.size ≠ lf.size)) ∧
    ((k ∈ (flattenFiles bucketTree).map Prod.fst ∨ k ∈ (flattenFiles localTree).map Prod.fst) ↔
       (k ∈ (compareBackupFiles bucketTree localTree).missingInLocal.map FlatFile.key
        ∨ k ∈ (compareBackupFiles bucketTree localTree).missingInBucket.map FlatFile.key
        ∨ k ∈ (compareBackupFiles bucketTree localTree).matchingFiles.map Prod.fst
        ∨ k ∈ (compareBackupFiles bucketTree localTree).differentFiles.map Prod.fst)) ∧
    (¬(k ∈ (compareBackupFiles bucketTree localTree).missingInLocal.map FlatFile.key
        ∧ k ∈ (compareBackupFiles bucketTree localTree).missingInBucket.map FlatFile.key) ∧
     ¬(k ∈ (compareBackupFiles bucketTree localTree).missingInLocal.map FlatFile.key
        ∧ k ∈ (compareBackupFiles bucketTree localTree).matchingFiles.map Prod.fst) ∧
     ¬(k ∈ (compareBackupFiles bucketTree localTree).missingInLocal.map FlatFile.key
        ∧ k ∈ (compareBackupFiles bucketTree localTree).differentFiles.map Prod.fst) ∧
     ¬(k ∈ (compareBackupFiles bucketTree localTree).missingInBucket.map FlatFile.key
        ∧ k ∈ (compareBackupFiles bucketTree localTree).matchingFiles.map Prod.fst) ∧
     ¬(k ∈ (compareBackupFiles bucketTree localTree).missingInBucket.map FlatFile.key
        ∧ k ∈ (compareBackupFiles bucketTree localTree).differentFiles.map Prod.fst) ∧
     ¬(k ∈ (compareBackupFiles bucketTree localTree).matchingFiles.map Prod.fst
        ∧ k ∈ (compareBackupFiles bucketTree localTree).differentFiles.map Prod.fst)) := by
  have h1 : k ∈ (compareBackupFiles bucketTree localTree).missingInLocal.map FlatFile.key ↔
      ((lookupMap (flattenFiles bucketTree) k).isSome = true
        ∧ lookupMap (flattenFiles localTree) k = none) := by
    rw [cbf_missingInLocal]
    exact mem_missingKeys _ _ (flattenFiles_key_inv bucketTree) k
  have h2 : k ∈ (compareBackupFiles bucketTree localTree).missingInBucket.map FlatFile.key ↔
      ((lookupMap (flattenFiles localTree) k).isSome = true
        ∧ lookupMap (flattenFiles bucketTree) k = none) := by
    rw [cbf_missingInBucket]
    exact mem_missingKeys _ _ (flattenFiles_key_inv localTree) k
  have h3 : k ∈ (compareBackupFiles bucketTree localTree).matchingFiles.map Prod.fst ↔
      ∃ bf lf, lookupMap (flattenFiles bucketTree) k = some bf
        ∧ lookupMap (flattenFiles localTree) k = some lf ∧ bf.size = lf.size := by
    rw [cbf_matchingFiles]
    exact mem_matchingKeys _ _ (flattenFiles_keys_nodup bucketTree) k
  have h4 : k ∈ (compareBackupFiles bucketTree localTree).differentFiles.map Prod.fst ↔
      ∃ bf lf, lookupMap (flattenFiles bucketTree) k = some bf
        ∧ lookupMap (flattenFiles localTree) k = some lf ∧ bf.size ≠ lf.size := by
    rw [cbf_differentFiles]
    exact mem_differentKeys _ _ (flattenFiles_keys_nodup bucketTree) k
  refine ⟨⟨h1, h2, h3, h4⟩, ?_⟩
  simp only [h1, h2, h3, h4, ← lookupMap_isSome_iff]
  cases hb : lookupMap (flattenFiles bucketTree) k with
  | none =>
    cases hl : lookupMap (flattenFiles localTree) k with
    | none => simp
    | some lf => simp
  | some bf =>
    cases hl : lookupMap (flattenFiles localTree) k with
    | none => simp
    | some lf =>
      by_cases hsz : bf.size = lf.size <;> simp [hsz]

/-! ### Plain-HTTP file-listing fallback (`getAllFilesFromHttp` in
Backend/services/fhsFilesService.js) -/

/-- A parsed JSON value, as produced by `JSON.parse`. -/
inductive Json where
  | null
  | bool (b : Bool)
  | num (n : Int)
  | str (s : String)
  | arr (elems : List Json)
  | obj (members : List (String × Json))

/-- The explicit request timeout installed by `req.setTimeout(10000, ...)`
(on expiry the request is destroyed and the promise rejects). -/
def httpFallbackTimeoutMs : Nat := 10000

/-- The response handler of `getAllFilesFromHttp`: after accumulating the
body, try `JSON.parse` (the `body` argument is the parse outcome) and
resolve `Array.isArray(files) ? files : []`; a parse failure resolves `[]`.
The HTTP status code is never inspected by the source; it is a parameter
here to make that visible. -/
def getAllFilesFromHttp (statusCode : Nat) (body : Except String Json) : List Json :=
  match statusCode, body with
  | _, Except.ok (Json.arr files) => files
  | _, Except.ok _ => []
  | _, Except.error _ => []

/-- Whether the parsed body is a JSON array (`Array.isArray`). -/
def isJsonArrayBody : Except String Json → Bool
  | Except.ok (Json.arr _) => true
  | _ => false

/-- C10 counterexample: a non-200 (here 500) response whose body parses
as a nonempty JSON array yields that array, not the empty list the claim
requires for every non-200 response. -/
theorem getAllFilesFromHttp_claim_cex :
    (getAllFilesFromHttp 500
      (Except.ok (Json.arr [Json.obj [("key", Json.str "docs/a.txt")]]))).length = 1 ∧
    ¬(getAllFilesFromHttp 500
      (Except.ok (Json.arr [Json.obj [("key", Json.str "docs/a.txt")]]))
        = ([] : List Json)) := by
  constructor
  · rfl
  · intro h
    cases h

/-- C10 (amended).  The fallback never fails on response content and
ignores the HTTP status code entirely: the result is independent of the
status, any body that does not parse to a JSON array (non-JSON, or JSON
of another shape) yields the empty list, and a JSON-array body yields its
elements even on a non-200 status.  The request does enforce an explicit
10-second timeout. -/
theorem getAllFilesFromHttp_amended (s1 s2 : Nat) (body : Except String Json) :
    getAllFilesFromHttp s1 body = getAllFilesFromHttp s2 body ∧
    (isJsonArrayBody body = false → getAllFilesFromHttp s1 body = []) ∧
    (∀ files, body = Except.ok (Json.arr files) → getAllFilesFromHttp s1 body = files) ∧
    httpFallbackTimeoutMs = 10000 := by
  refine ⟨?_, ?_, ?_, rfl⟩
  · cases body with
    | error e => rfl
    | ok j => cases j <;> rfl
  · intro hb
    cases body with
    | error e => rfl
    | ok j => cases j <;> first | rfl | (exfalso; cases hb)
  · intro files hf
    rw [hf]
    rfl

/-- Witness for C10 (amended): a 404 response with a non-JSON body. -/
theorem getAllFilesFromHttp_amended_witness :
    (isJsonArrayBody (Except.error "Unexpected token < in JSON") = false) ∧
    getAllFilesFromHttp 404 (Except.error "Unexpected token < in JSON")
      = getAllFilesFromHttp 200 (Except.error "Unexpected token < in JSON") ∧
    getAllFilesFromHttp 404 (Except.error "Unexpected token < in JSON") = [] :=
  ⟨rfl,
   (getAllFilesFromHttp_amended 404 200 (Except.error "Unexpected token < in JSON")).1,
   (getAllFilesFromHttp_amended 404 200 (Except.error "Unexpected token < in JSON")).2.1 rfl⟩
